import Mathlib

/-!
# Verification of the Mazo-Parser extraction and matching pipeline

Shallow embedding of the resume/job-description parsing heuristics of the
Mazo-Parser repository, together with proofs settling the frozen claims
about them.

Conventions of the embedding:
* JavaScript strings are modelled as Lean `String` / `List Char`; all string
  helpers are written as structurally recursive functions over `List Char`
  so that every definition kernel-evaluates on concrete inputs.
* JavaScript numbers used for counting and ratios are modelled exactly:
  integer arithmetic on `Int`/`Nat` and `Math.round` on `Rat` as
  `⌊q + 1/2⌋` (exact rational arithmetic in place of IEEE doubles).
* The JavaScript regex *scanning* steps that merely generate candidate
  substrings (phone-number candidate matches, contextual skill phrases,
  bullet lines, work-history date matches) are abstracted as function or
  list parameters, universally quantified in the theorems: the proved
  properties hold for every candidate set the regexes could produce.
  Regexes whose result feeds a claim's concrete value (the tier-2 year-range
  regex of the experience estimator) are embedded concretely.
-/

/-- JavaScript `\s` (whitespace) restricted to the code points that occur in
the ASCII resume texts handled here: space, tab, newline, carriage return,
form feed and vertical tab. -/
def jsWs (c : Char) : Bool :=
  c = ' ' || c = '\t' || c = '\n' || c = '\r' || c = '\x0c' || c = '\x0b'

/-- JavaScript `\w` word characters: ASCII letters, digits and underscore. -/
def jsWordChar (c : Char) : Bool :=
  ('a' ≤ c && c ≤ 'z') || ('A' ≤ c && c ≤ 'Z') || c.isDigit || c = '_'

/-- `text.split(sep)` for a single-character separator, on char lists.
Mirrors JavaScript `String.prototype.split`: the result is always
non-empty, and splitting a string not containing `sep` yields the whole
string as its only piece. -/
def splitChar (sep : Char) : List Char → List (List Char)
  | [] => [[]]
  | c :: rest =>
    match splitChar sep rest with
    | [] => [[c]]
    | h :: t => if c = sep then [] :: h :: t else (c :: h) :: t

/-- Collapse every maximal run of characters satisfying `p` to the single
character `rep`: the effect of `text.replace(/[p]+/g, rep)`. -/
def collapseRuns (p : Char → Bool) (rep : Char) : Bool → List Char → List Char
  | _, [] => []
  | inRun, c :: rest =>
    if p c then
      if inRun then collapseRuns p rep true rest
      else rep :: collapseRuns p rep true rest
    else c :: collapseRuns p rep false rest

/-- `text.trim()` on char lists: strip leading and trailing whitespace. -/
def trimL (l : List Char) : List Char :=
  ((l.dropWhile jsWs).reverse.dropWhile jsWs).reverse

/-- `text.toLowerCase()` on char lists (ASCII). -/
def lowerL (l : List Char) : List Char := l.map Char.toLower

/-- `haystack.includes(needle)` — substring containment. -/
def containsSub : List Char → List Char → Bool
  | [], needle => needle.isEmpty
  | c :: t, needle => needle.isPrefixOf (c :: t) || containsSub t needle

/-- JavaScript `Math.round` on an exact rational: round half up. -/
def jsRound (q : ℚ) : ℤ := ⌊q + 1/2⌋

/-- Insertion into a JavaScript `Set`/`Map` key list: append-free
front-insertion used where only membership matters later. -/
def setInsert (x : String) (l : List String) : List String :=
  if l.contains x then l else x :: l

/-- Insertion-ordered `Set.add`: append `x` if it is not present, keeping
first-discovery order (used where the final `Array.from(set)` order is part
of the result). -/
def setAppend (l : List String) (x : String) : List String :=
  if l.contains x then l else l ++ [x]

namespace ContactExtractor

/-!
## `src/src/utils/parser/contactExtractor.ts`
-/

/-- The placeholder domains filtered by `isValidEmail`
(`contactExtractor.ts` lines 33–42). -/
def invalidDomains : List String :=
  ["example.com", "test.com", "email.com", "domain.com", "company.com",
   "yourcompany.com", "youremail.com", "sample.com"]

/-- Characters allowed in the local part by the regex `^[A-Za-z0-9._%-]+$`. -/
def localChar (c : Char) : Bool :=
  ('a' ≤ c && c ≤ 'z') || ('A' ≤ c && c ≤ 'Z') || c.isDigit ||
  c = '.' || c = '_' || c = '%' || c = '-'

/-- The body of `isValidEmail` after the split into local part and
domain (`contactExtractor.ts` lines 12–48): the early-return chain of the
source rendered as a conjunction chain over the whole address `e`, local
part and domain. -/
def emailChecks (e localPart domain : List Char) : Bool :=
  -- local part validation
  (!localPart.isEmpty) && localPart.length ≤ 64 &&
  !(localPart.head? = some '.') && !(localPart.getLast? = some '.') &&
  !(containsSub localPart ['.', '.']) &&
  localPart.all localChar &&
  -- domain validation
  (!domain.isEmpty) && domain.length ≤ 255 &&
  !(domain.head? = some '.') && !(domain.getLast? = some '.') &&
  !(domain.head? = some '-') && !(domain.getLast? = some '-') &&
  !(containsSub domain ['.', '.']) &&
  domain.contains '.' &&
  (splitChar '.' domain).length ≥ 2 &&
  (match (splitChar '.' domain).getLast? with
   | some tld => tld.length ≥ 2
   | none => false) &&
  -- no whitespace, no '@.' or '.@'
  (!e.any jsWs) &&
  !(containsSub e ['@', '.']) && !(containsSub e ['.', '@']) &&
  -- placeholder filter: endsWith(whole address) ∧ short local part
  invalidDomains.all (fun d => !(d.data.isSuffixOf e && localPart.length < 3))

/-- `isValidEmail` (`contactExtractor.ts` lines 4–49).  The split on `'@'`
is total because the branch is only reached when the string contains
exactly one `'@'`. -/
def isValidEmail (email : String) : Bool :=
  let e := email.data
  if e.length < 5 || 100 < e.length then false
  else if e.count '@' ≠ 1 then false
  else
    match splitChar '@' e with
    | [localPart, domain] => emailChecks e localPart domain
    | _ => false  -- unreachable: exactly one '@' always yields two pieces

/-- The label words stripped by `cleanPhone` (`contactExtractor.ts`
lines 188–191). -/
def phoneLabels : List String :=
  ["phone", "mobile", "cell", "tel", "telephone", "contact",
   "ph", "mob", "number", "call", "reach"]

/-- Remove every occurrence of the word `w` from `l`, the effect of
`replace(new RegExp("\\b" + w + "\\b", "gi"), "")` on an already
lowercased string.  `prev` is the character preceding the current scan
position (for the `\b` checks) and `fuel` bounds the recursion by the
remaining length; the wrapper always supplies enough fuel. -/
def dropWordAux (w : List Char) : ℕ → Option Char → List Char → List Char
  | 0, _, l => l
  | _ + 1, _, [] => []
  | fuel + 1, prev, c :: rest =>
    if w.isPrefixOf (c :: rest) &&
       (match prev with | none => true | some p => !jsWordChar p) &&
       (match (c :: rest).drop w.length with
        | [] => true
        | nxt :: _ => !jsWordChar nxt) then
      dropWordAux w fuel (w.getLast? <|> prev) ((c :: rest).drop w.length)
    else
      c :: dropWordAux w fuel (some c) rest

/-- Word-boundary global deletion of `w` from `l`. -/
def dropWord (w : List Char) (l : List Char) : List Char :=
  dropWordAux w l.length none l

/-- `true` on the digits `6`–`9` (first digit of an Indian mobile number). -/
def startsSixToNine : List Char → Bool
  | c :: _ => '6' ≤ c && c ≤ '9'
  | [] => false

/-- The regex `/^(\d)\1+$/`: a single repeated digit, at least twice. -/
def allSameDigit : List Char → Bool
  | d :: c :: rest => d.isDigit && (c :: rest).all (· = d)
  | _ => false

/-- The hardcoded fake digit sequences (`contactExtractor.ts` line 133). -/
def fakeSequences : List (List Char) :=
  ["1234567890".data, "0123456789".data, "9876543210".data,
   "1111111111".data, "0000000000".data]

/-- `isValidPhone` (`contactExtractor.ts` lines 122–153). -/
def isValidPhone (phone digits : List Char) : Bool :=
  -- must start with + or digit
  (match phone with
   | c :: _ => c = '+' || c.isDigit
   | [] => false) &&
  -- at most one + sign
  phone.count '+' ≤ 1 &&
  -- not a single repeated digit
  !allSameDigit digits &&
  -- not a known fake sequence
  !fakeSequences.contains digits &&
  -- 12 digits starting with country code 91: rest must start 6-9
  (if "91".data.isPrefixOf digits && digits.length = 12 then
     startsSixToNine (digits.drop 2)
   else true) &&
  -- exactly 10 digits: must start 6-9
  (if digits.length = 10 then startsSixToNine digits else true) &&
  -- exactly 11 digits: must start with 1
  (if digits.length = 11 then digits.head? = some '1' else true)

/-- `formatPhone` (`contactExtractor.ts` lines 156–183). -/
def formatPhone (phone digits : List Char) : List Char :=
  if phone.head? = some '+' then phone
  else if digits.length = 10 && startsSixToNine digits then
    '+' :: '9' :: '1' :: digits
  else if digits.length = 12 && "91".data.isPrefixOf digits then '+' :: digits
  else if digits.length = 11 && digits.head? = some '1' then '+' :: digits
  else if 10 < digits.length && digits.length ≤ 15 then '+' :: digits
  else []

/-- The cleaning prefix of `cleanPhone` (`contactExtractor.ts` lines
193–203): lowercase, strip label words, keep only digits and `+`, turn a
leading `00` into `+`. -/
def cleanedOf (phone : String) : List Char :=
  let lowered := lowerL phone.data
  let stripped := phoneLabels.foldl (fun s lab => dropWord lab.data s) lowered
  let kept := stripped.filter (fun c => c.isDigit || c = '+')
  match kept with
  | '0' :: '0' :: rest => '+' :: rest
  | l => l

/-- `cleanPhone` (`contactExtractor.ts` lines 186–221): clean, then gate
on digit count and `isValidPhone` before formatting. -/
def cleanPhone (phone : String) : String :=
  let cleaned := cleanedOf phone
  let digits := cleaned.filter Char.isDigit
  if digits.length < 10 || 15 < digits.length then ""
  else if !isValidPhone cleaned digits then ""
  else ⟨formatPhone cleaned digits⟩

/-- One step of phone-candidate accumulation: `cleanPhone` the candidate
and add it to the insertion-ordered set when non-empty
(`contactExtractor.ts` lines 258–303, the body of each strategy loop). -/
def phoneStep (acc : List String) (cand : String) : List String :=
  let c := cleanPhone cand
  if c ≠ "" then setAppend acc c else acc

/-- `extractPhonesFromText` (`contactExtractor.ts` lines 224–306) with the
three regex scanning stages abstracted: `patternCands` are the raw matches
of the nine phone regexes over the whitespace-collapsed text,
`keywordCands` the digit blobs found on keyword-bearing lines and the two
lines after them, and `headerCands` the 10-digit tokens of the first 30
lines.  Every candidate passes through `cleanPhone`; non-empty results are
collected in first-discovery order. -/
def extractPhonesFromText
    (patternCands keywordCands headerCands : List String) : List String :=
  let s1 := patternCands.foldl phoneStep []
  let s2 := keywordCands.foldl phoneStep s1
  headerCands.foldl phoneStep s2

/-- The whitespace normalisation performed by `extractContactInfo`
(`contactExtractor.ts` lines 310–313) before either extractor runs:
collapse every whitespace run (newlines included) to a single space,
collapse every run of non-newline whitespace to a single space, trim. -/
def extractContactInfoInput (text : String) : String :=
  ⟨trimL (collapseRuns (fun c => jsWs c && c ≠ '\r' && c ≠ '\n') ' ' false
           (collapseRuns jsWs ' ' false text.data))⟩

end ContactExtractor

namespace DocParser

/-!
## `src/unnamed/part_000` (the document-parser module)

A second, slightly different copy of the phone pipeline, plus the skill
extractor and its keyword dictionary.
-/

/-- Labels stripped by this module's `cleanPhone` (`part_000` line 187):
no `call`/`reach`, and the replacement regex has no `\b` anchors, so the
labels are removed as plain substrings. -/
def phoneLabels : List String :=
  ["phone", "mobile", "cell", "tel", "telephone", "contact",
   "ph", "mob", "number"]

/-- Remove every occurrence of the substring `w` (no word-boundary
anchors), scanning left to right without overlap; `fuel` bounds the
recursion and is always supplied as the list length. -/
def dropSubAux (w : List Char) : ℕ → List Char → List Char
  | 0, l => l
  | _ + 1, [] => []
  | fuel + 1, c :: rest =>
    if w.isPrefixOf (c :: rest) && !w.isEmpty then
      dropSubAux w fuel ((c :: rest).drop w.length)
    else
      c :: dropSubAux w fuel rest

/-- Global substring deletion of `w` from `l`. -/
def dropSub (w : List Char) (l : List Char) : List Char :=
  dropSubAux w l.length l

/-- `isValidPhone` (`part_000` lines 222–249): like the contact-extractor
version but the explicit fake list is the regex
`^(?:0123456789|1234567890|9876543210)$` and there is no 11-digit rule
(the all-same-digit regex still rejects `1111111111` and `0000000000`). -/
def isValidPhone (phone digits : List Char) : Bool :=
  (match phone with
   | c :: _ => c = '+' || c.isDigit
   | [] => false) &&
  phone.count '+' ≤ 1 &&
  !ContactExtractor.allSameDigit digits &&
  !(digits = "0123456789".data || digits = "1234567890".data ||
    digits = "9876543210".data) &&
  (if "91".data.isPrefixOf digits && digits.length = 12 then
     ContactExtractor.startsSixToNine (digits.drop 2)
   else true) &&
  (if digits.length = 10 then ContactExtractor.startsSixToNine digits
   else true)

/-- `formatPhone` (`part_000` lines 252–279), textually identical to the
contact-extractor version. -/
def formatPhone (phone digits : List Char) : List Char :=
  ContactExtractor.formatPhone phone digits

/-- The cleaning prefix of this module's `cleanPhone` (`part_000` lines
188–201): lowercase, delete label substrings, keep digits, `+` and
parentheses, delete the parentheses, turn a leading `00` into `+`. -/
def cleanedOf (phone : String) : List Char :=
  let lowered := lowerL phone.data
  let stripped := phoneLabels.foldl (fun s lab => dropSub lab.data s) lowered
  let kept := stripped.filter (fun c => c.isDigit || c = '+' || c = '(' || c = ')')
  let noParens := kept.filter (fun c => !(c = '(' || c = ')'))
  match noParens with
  | '0' :: '0' :: rest => '+' :: rest
  | l => l

/-- `cleanPhone` (`part_000` lines 185–219): clean, then gate on digit
count and `isValidPhone` before formatting. -/
def cleanPhone (phone : String) : String :=
  let cleaned := cleanedOf phone
  let digits := cleaned.filter Char.isDigit
  if digits.length < 10 || 15 < digits.length then ""
  else if !isValidPhone cleaned digits then ""
  else ⟨formatPhone cleaned digits⟩

/-- Candidate accumulation step for this module's `extractPhones`. -/
def phoneStep (acc : List String) (cand : String) : List String :=
  let c := cleanPhone cand
  if c ≠ "" then setAppend acc c else acc

/-- `extractPhones` (`part_000` lines 115–182) with its two regex scanning
stages abstracted as candidate lists (eight pattern regexes over the
whitespace-collapsed text, then digit blobs near keyword lines). -/
def extractPhones (patternCands keywordCands : List String) : List String :=
  let s1 := patternCands.foldl phoneStep []
  keywordCands.foldl phoneStep s1

/-- The fixed skill dictionary (`part_000` lines 508–569), verbatim and in
source order (including the duplicated `Swift`, `Kotlin` and `DynamoDB`
entries). -/
def skillKeywords : List String :=
  ["Python", "Java", "JavaScript", "TypeScript", "C++", "C#", "PHP", "Ruby", "Go", "Rust",
   "Swift", "Kotlin", "Scala", "R", "MATLAB", "Perl", "Objective-C", "Dart", "Elixir",
   "React", "Angular", "Vue", "Vue.js", "Svelte", "Next.js", "Nuxt.js", "Gatsby",
   "HTML", "HTML5", "CSS", "CSS3", "SASS", "SCSS", "LESS", "Tailwind CSS", "Bootstrap",
   "Material UI", "Chakra UI", "Ant Design", "jQuery", "Webpack", "Vite", "Babel",
   "Redux", "MobX", "Zustand", "Recoil", "Context API",
   "Node.js", "Express", "Express.js", "Django", "Flask", "FastAPI", "Spring", "Spring Boot",
   ".NET", ".NET Core", "ASP.NET", "Laravel", "Symfony", "Ruby on Rails", "Sinatra",
   "NestJS", "Koa", "Hapi", "Fastify",
   "SQL", "MySQL", "PostgreSQL", "MongoDB", "Redis", "Cassandra", "Oracle", "SQL Server",
   "MariaDB", "SQLite", "DynamoDB", "Elasticsearch", "Neo4j", "CouchDB", "Firebase",
   "Supabase", "PlanetScale", "Fauna", "NoSQL",
   "AWS", "Azure", "GCP", "Google Cloud", "Docker", "Kubernetes", "Jenkins", "GitLab CI",
   "GitHub Actions", "CircleCI", "Travis CI", "Terraform", "Ansible", "Chef", "Puppet",
   "CloudFormation", "CI/CD", "DevOps", "Linux", "Unix", "Bash",
   "Lambda", "S3", "EC2", "ECS", "EKS", "RDS", "DynamoDB", "CloudFront", "Route 53",
   "API Gateway", "SQS", "SNS", "CloudWatch", "IAM", "VPC", "Elastic Beanstalk",
   "Machine Learning", "Deep Learning", "AI", "Artificial Intelligence", "Data Science",
   "TensorFlow", "PyTorch", "Keras", "Scikit-learn", "Pandas", "NumPy", "SciPy",
   "Matplotlib", "Seaborn", "NLP", "Computer Vision", "OpenCV", "NLTK", "spaCy",
   "Jest", "Mocha", "Chai", "Jasmine", "Cypress", "Selenium", "Playwright", "Puppeteer",
   "JUnit", "pytest", "unittest", "TestNG", "Karma", "Enzyme",
   "React Native", "Flutter", "iOS", "Android", "Swift", "Kotlin", "Xamarin", "Ionic",
   "Git", "GitHub", "GitLab", "Bitbucket", "SVN", "Mercurial", "Jira", "Confluence",
   "Trello", "Asana", "Slack",
   "REST", "REST API", "RESTful", "GraphQL", "gRPC", "SOAP", "WebSocket", "Socket.io",
   "JSON", "XML", "Microservices", "API Design",
   "UI/UX", "Figma", "Sketch", "Adobe XD", "Photoshop", "Illustrator", "InVision",
   "Zeplin", "Responsive Design", "Web Design",
   "Agile", "Scrum", "Kanban", "Waterfall", "TDD", "BDD", "DDD", "SOLID",
   "Blockchain", "Web3", "Solidity", "Smart Contracts", "Ethereum", "Big Data",
   "Hadoop", "Spark", "Kafka", "RabbitMQ", "Nginx", "Apache", "OAuth", "JWT",
   "GDPR", "Security", "Penetration Testing", "Cryptography"]

/-- Case-insensitive bidirectional substring containment used by the
aggressive contextual scan (`part_000` lines 607–608). -/
def phraseHitsKeyword (phrase keyword : String) : Bool :=
  containsSub (lowerL phrase.data) (lowerL keyword.data) ||
  containsSub (lowerL keyword.data) (lowerL phrase.data)

/-- `extractSkillsFromText` (`part_000` lines 504–634).  The three regex
scanning steps are abstracted: `directHit sk` stands for the
word-boundary case-insensitive regex test of dictionary entry `sk`
against the full text (Method 1), `phraseCands` for the raw pieces
produced by splitting the contextual-pattern captures on
`and`/`or`/commas (Method 2, before trimming and length filtering), and
`bullets` for the captured bullet-line bodies (Method 3).
`isJobDescription` is accepted and ignored exactly as in the source.
Whatever those regexes produce, only verbatim dictionary entries are ever
added to the result set. -/
def extractSkillsFromText (directHit : String → Bool)
    (phraseCands bullets : List String)
    (isJobDescription : Bool := false) (aggressive : Bool := false) :
    List String :=
  let found1 := skillKeywords.foldl
    (fun acc sk => if directHit sk then setAppend acc sk else acc) []
  if aggressive then
    let found2 := phraseCands.foldl
      (fun acc raw =>
        let s : String := ⟨trimL raw.data⟩
        if 2 < s.length && s.length < 30 then
          skillKeywords.foldl
            (fun acc2 known =>
              if phraseHitsKeyword s known then setAppend acc2 known else acc2)
            acc
        else acc)
      found1
    let found3 := bullets.foldl
      (fun acc b =>
        let bt := lowerL b.data
        skillKeywords.foldl
          (fun acc2 sk =>
            if containsSub bt (lowerL sk.data) then setAppend acc2 sk else acc2)
          acc)
      found2
    found3
  else found1

end DocParser

namespace Matcher

/-!
## The four-tier skill matcher

`calculateMatchPercentage` appears twice with identical logic:
`src/src/components/CandidateTable.tsx` lines 22–150 and
`src/src/utils/geminiParser.ts` lines 848–976 (the latter differs only in
logging).  It is embedded once here.
-/

/-- A JavaScript array entry of the skill lists: either a string or some
non-string value (filtered out by `typeof skill === "string"`). -/
inductive SkillVal where
  | str (s : String)
  | nonString
deriving DecidableEq

/-- `skills.filter(s => typeof s === "string")`. -/
def filterStrings (l : List SkillVal) : List String :=
  l.filterMap (fun v => match v with | .str s => some s | .nonString => none)

/-- `skill.toLowerCase().trim()`. -/
def normSkill (s : String) : String := ⟨trimL (lowerL s.data)⟩

/-- The fixed technology-equivalence table (`CandidateTable.tsx`
lines 102–120). -/
def technologyEquivalents : List (List String) :=
  [["sql", "mysql", "postgresql", "ms sql", "sql server"],
   ["aws", "amazon web services"],
   ["gcp", "google cloud platform", "google cloud"],
   ["azure", "microsoft azure"],
   ["react", "react.js"],
   ["vue", "vue.js"],
   ["angular", "angular.js"],
   ["node", "node.js"],
   ["ml", "machine learning"],
   ["ai", "artificial intelligence"],
   ["ci/cd", "continuous integration", "continuous deployment"],
   ["k8s", "kubernetes"]]

/-- Tier 1 test: the required skill appears verbatim among the candidate
skills (`normalizedCandidateSkills.includes(requiredSkill)`). -/
def tier1 (nc : List String) (r : String) : Bool := nc.contains r

/-- Tier 2 test (compound terms): the required skill contains a space and
some single candidate skill contains every space-separated part of it as a
substring. -/
def tier2 (nc : List String) (r : String) : Bool :=
  containsSub r.data [' '] &&
  nc.any (fun c => (splitChar ' ' r.data).all (fun part => containsSub c.data part))

/-- One direction of the substantial word-boundary test: `big` contains
`small` as a distinct word (` x `, leading `x `, trailing ` x`, or
equality). -/
def containsAsWord (big small : String) : Bool :=
  containsSub big.data (' ' :: small.data ++ [' ']) ||
  (small.data ++ [' ']).isPrefixOf big.data ||
  (' ' :: small.data).isSuffixOf big.data ||
  big = small

/-- Tier 3 test (substantial match): some candidate skill and the required
skill contain one another as a distinct word. -/
def tier3 (nc : List String) (r : String) : Bool :=
  nc.any (fun c => containsAsWord c r || containsAsWord r c)

/-- Equivalence-tier per-candidate test: the candidate equals the group
member or word-boundary-contains it. -/
def equivHit (c e : String) : Bool :=
  c = e ||
  (e.data ++ [' ']).isPrefixOf c.data ||
  (' ' :: e.data).isSuffixOf c.data ||
  containsSub c.data (' ' :: e.data ++ [' '])

/-- Tier 4 test (technology equivalents): some group contains the required
skill and some candidate skill hits some member of that group. -/
def tier4 (nc : List String) (r : String) : Bool :=
  technologyEquivalents.any
    (fun g => g.contains r && nc.any (fun c => g.any (fun e => equivHit c e)))

/-- The exact-match loop body (`CandidateTable.tsx` lines 42–49): no
matched-set guard, every exact occurrence counts and the skill is marked. -/
def exactStep (nc : List String) (st : ℕ × List String) (r : String) :
    ℕ × List String :=
  if tier1 nc r then (st.1 + 1, setInsert r st.2) else st

/-- The combined partial/substantial loop body (`CandidateTable.tsx`
lines 52–99): skip if already matched, try the compound-term test, then
the substantial word-boundary inner loop. -/
def partialSubstantialStep (nc : List String) (st : ℕ × List String)
    (r : String) : ℕ × List String :=
  if st.2.contains r then st
  else if tier2 nc r then (st.1 + 1, r :: st.2)
  else if tier3 nc r then (st.1 + 1, r :: st.2)
  else st

/-- The technology-equivalents loop body (`CandidateTable.tsx`
lines 122–146). -/
def equivalentStep (nc : List String) (st : ℕ × List String) (r : String) :
    ℕ × List String :=
  if st.2.contains r then st
  else if tier4 nc r then (st.1 + 1, r :: st.2)
  else st

/-- `calculateMatchPercentage` (`CandidateTable.tsx` lines 22–150 and
`geminiParser.ts` lines 848–976): empty-list guards, normalisation, the
exact pass over the full required list, the combined partial/substantial
pass, the equivalence pass, then `Math.round((matchCount / total) * 100)`. -/
def calculateMatchPercentage (candidateSkills requiredSkills : List SkillVal) :
    ℤ :=
  if requiredSkills.isEmpty then 0
  else if candidateSkills.isEmpty then 0
  else
    let nr := (filterStrings requiredSkills).map normSkill
    let nc := (filterStrings candidateSkills).map normSkill
    if nr.isEmpty then 0
    else
      let s1 := nr.foldl (exactStep nc) (0, [])
      let s2 := nr.foldl (partialSubstantialStep nc) s1
      let s3 := nr.foldl (equivalentStep nc) s2
      jsRound (((s3.1 : ℚ) / (nr.length : ℚ)) * 100)

/-- Declarative reading of the claim: a required skill is credited to the
first tier whose test it passes. -/
def firstTier2 (nc : List String) (r : String) : Bool :=
  !tier1 nc r && tier2 nc r

/-- First tier to match is the substantial tier. -/
def firstTier3 (nc : List String) (r : String) : Bool :=
  !tier1 nc r && !tier2 nc r && tier3 nc r

/-- First tier to match is the equivalence tier. -/
def firstTier4 (nc : List String) (r : String) : Bool :=
  !tier1 nc r && !tier2 nc r && !tier3 nc r && tier4 nc r

/-- The matched count as the claim describes it: every required skill is
matched at most once, by the first of the four tiers (in the fixed order
exact, partial, substantial, equivalents) whose test it passes. -/
def specMatchedCount (nc nr : List String) : ℕ :=
  (nr.filter (tier1 nc)).length +
  (nr.filter (firstTier2 nc)).length +
  (nr.filter (firstTier3 nc)).length +
  (nr.filter (firstTier4 nc)).length

end Matcher

namespace GeminiParser

/-!
## Experience estimation (`src/src/utils/geminiParser.ts` lines 327–437)
and the report-site experience policy (lines 1052–1054)
-/

/-- A JavaScript `Date` restricted to calendar resolution, as produced by
`new Date(year, monthIndex, day)`: `month` is the 0-based index returned
by `getMonth()`.  Timestamps are modelled at UTC midnight; only timestamp
differences and the calendar accessors are used by the code. -/
structure JsDate where
  year : ℤ
  month : ℤ
  day : ℤ
deriving DecidableEq

/-- Days since 1970-01-01 of the civil date `(y, m, d)` with `m` 1-based
(standard civil-from-days inverse, using floor division). -/
def daysFromCivil (y m d : ℤ) : ℤ :=
  let yAdj := if m ≤ 2 then y - 1 else y
  let era := Int.fdiv yAdj 400
  let yoe := yAdj - era * 400
  let mp := (m + 9) % 12
  let doy := Int.fdiv (153 * mp + 2) 5 + d - 1
  let doe := yoe * 365 + Int.fdiv yoe 4 - Int.fdiv yoe 100 + doy
  era * 146097 + doe - 719468

/-- `date.getTime()` in milliseconds. -/
def JsDate.getTime (dt : JsDate) : ℤ :=
  daysFromCivil dt.year (dt.month + 1) dt.day * 86400000

/-- A work period scanned from the text (`geminiParser.ts` line 356). -/
structure WorkPeriod where
  start : JsDate
  endDate : JsDate
deriving DecidableEq

/-- The month count the source assigns to one merged period
(`geminiParser.ts` lines 430–431):
`(end.getFullYear() - start.getFullYear()) * 12 +
 (end.getMonth() - start.getMonth()) + 1`. -/
def periodMonths (p : WorkPeriod) : ℤ :=
  (p.endDate.year - p.start.year) * 12 + (p.endDate.month - p.start.month) + 1

/-- The merge tolerance: `30 * 24 * 60 * 60 * 1000` ms. -/
def oneMonthMs : ℤ := 30 * 24 * 60 * 60 * 1000

/-- `new Date(Math.max(cur.end.getTime(), next.end.getTime()))` on two
calendar-resolution dates: the date with the larger timestamp. -/
def maxEndDate (a b : JsDate) : JsDate :=
  if a.getTime < b.getTime then b else a

/-- The merge loop (`geminiParser.ts` lines 408–425): absorb the next
period into the current one while the gap from the current end to the next
start is at most `oneMonthMs`. -/
def mergeLoop : WorkPeriod → List WorkPeriod → List WorkPeriod
  | cur, [] => [cur]
  | cur, nxt :: rest =>
    if nxt.start.getTime - cur.endDate.getTime ≤ oneMonthMs then
      mergeLoop ⟨cur.start, maxEndDate cur.endDate nxt.endDate⟩ rest
    else cur :: mergeLoop nxt rest

/-- Stable insertion for the ascending sort by start timestamp,
modelling `workPeriods.sort((a, b) => a.start.getTime() - b.start.getTime())`. -/
def insertByStart (p : WorkPeriod) : List WorkPeriod → List WorkPeriod
  | [] => [p]
  | q :: t =>
    if p.start.getTime ≤ q.start.getTime then p :: q :: t
    else q :: insertByStart p t

/-- Stable sort of the scanned periods by ascending start timestamp. -/
def sortByStart (l : List WorkPeriod) : List WorkPeriod :=
  l.foldr insertByStart []

/-- `calculateExperienceFromWorkHistory` (`geminiParser.ts` lines
343–437).  The four `matchAll` date-range regexes and the per-match date
parsing (lines 345–399) are abstracted as the `scan` parameter, which
yields the already-parsed valid periods (`start <= end`) in scan order;
the reconciliation (sort ascending by start, merge gaps of at most 30
days, sum months, divide by 12 and round, empty string unless positive)
is embedded concretely. -/
def calculateExperienceFromWorkHistory
    (scan : String → List WorkPeriod) (text : String) : String :=
  match sortByStart (scan text) with
  | [] => ""
  | p :: rest =>
    let merged := mergeLoop p rest
    let totalMonths := (merged.map periodMonths).sum
    let totalYears := jsRound ((totalMonths : ℚ) / 12)
    if 0 < totalYears then toString totalYears else ""

/-- Group 2 of the tier-2 regex `(20\d{2}|present|current|now)`. -/
inductive RangeEnd where
  | year (y : ℤ)
  | openEnded
deriving DecidableEq

/-- Numeric value of a decimal digit character. -/
def digitVal (c : Char) : ℤ := (c.toNat : ℤ) - 48

/-- The dash alternatives `[-–—]` of the date-range regexes. -/
def isDash (c : Char) : Bool := c = '-' || c = '–' || c = '—'

/-- Try the keyword alternatives `present|current|now` (case-insensitive)
of the tier-2 regex at the head of `l`. -/
def matchKeywordEnd (l : List Char) : Option (RangeEnd × List Char) :=
  if "present".data.isPrefixOf (lowerL l) then some (.openEnded, l.drop 7)
  else if "current".data.isPrefixOf (lowerL l) then some (.openEnded, l.drop 7)
  else if "now".data.isPrefixOf (lowerL l) then some (.openEnded, l.drop 3)
  else none

/-- Try group 2 at the head of `l`: the year alternative first, then the
keywords, exactly as the regex alternation orders them. -/
def matchRangeEnd : List Char → Option (RangeEnd × List Char)
  | '2' :: '0' :: a :: b :: rest =>
    if a.isDigit && b.isDigit then
      some (.year (2000 + digitVal a * 10 + digitVal b), rest)
    else matchKeywordEnd ('2' :: '0' :: a :: b :: rest)
  | l => matchKeywordEnd l

/-- Attempt the whole tier-2 regex
`\b(20\d{2})\s*[-–—]\s*(20\d{2}|present|current|now)\b` at one position:
`prev` is the character before the position (for the leading `\b`, which
demands a non-word predecessor since `2` is a word character); the
trailing `\b` demands a non-word successor since every alternative of
group 2 ends in a word character. -/
def tryYearRangeAt (prev : Option Char) (l : List Char) :
    Option (ℤ × RangeEnd) :=
  if (match prev with | none => true | some p => !jsWordChar p) then
    match l with
    | '2' :: '0' :: a :: b :: rest =>
      if a.isDigit && b.isDigit then
        match (rest.dropWhile jsWs) with
        | dash :: r2 =>
          if isDash dash then
            match matchRangeEnd (r2.dropWhile jsWs) with
            | some (e, after) =>
              if (match after with | [] => true | nxt :: _ => !jsWordChar nxt)
              then some (2000 + digitVal a * 10 + digitVal b, e)
              else none
            | none => none
          else none
        | [] => none
      else none
    | _ => none
  else none

/-- Leftmost-match scan for the tier-2 regex, carrying the previous
character for the `\b` test. -/
def firstYearRangeAux : Option Char → List Char → Option (ℤ × RangeEnd)
  | _, [] => none
  | prev, c :: rest =>
    match tryYearRangeAt prev (c :: rest) with
    | some r => some r
    | none => firstYearRangeAux (some c) rest

/-- `text.match(/\b(20\d{2})\s*[-–—]\s*(20\d{2}|present|current|now)\b/i)`
(`geminiParser.ts` line 330): the leftmost match, if any. -/
def firstYearRange (text : String) : Option (ℤ × RangeEnd) :=
  firstYearRangeAux none text.data

/-- `extractExperienceYears` (`geminiParser.ts` lines 328–340): if the
single year-range regex matches anywhere, return
`endYear - startYear` (with `endYear` the current calendar year for an
open-ended range); only otherwise fall through to the work-history
reconciliation.  `todayYear` stands for `new Date().getFullYear()`. -/
def extractExperienceYears (todayYear : ℤ)
    (scan : String → List WorkPeriod) (text : String) : String :=
  match firstYearRange text with
  | some (startYear, e) =>
    let endYear := match e with | .year y => y | .openEnded => todayYear
    toString (endYear - startYear)
  | none => calculateExperienceFromWorkHistory scan text

/-- JavaScript `parseInt` in its default radix: skip leading whitespace,
optional sign, auto-hexadecimal on a `0x`/`0X` prefix, then the longest
digit run; `none` models `NaN`. -/
def jsParseInt (s : String) : Option ℤ :=
  let l := s.data.dropWhile jsWs
  let signAndRest : ℤ × List Char :=
    match l with
    | '-' :: t => (-1, t)
    | '+' :: t => (1, t)
    | t => (1, t)
  let sign := signAndRest.1
  let body := signAndRest.2
  let isHexDigit : Char → Bool := fun c =>
    c.isDigit || ('a' ≤ c && c ≤ 'f') || ('A' ≤ c && c ≤ 'F')
  let hexVal : Char → ℤ := fun c =>
    if c.isDigit then digitVal c
    else if 'a' ≤ c && c ≤ 'f' then (c.toNat : ℤ) - 87
    else (c.toNat : ℤ) - 55
  match body with
  | '0' :: x :: t =>
    if x = 'x' || x = 'X' then
      let ds := t.takeWhile isHexDigit
      if ds.isEmpty then none
      else some (sign * ds.foldl (fun acc c => acc * 16 + hexVal c) 0)
    else
      let ds := body.takeWhile Char.isDigit
      some (sign * ds.foldl (fun acc c => acc * 10 + digitVal c) 0)
  | _ =>
    let ds := body.takeWhile Char.isDigit
    if ds.isEmpty then none
    else some (sign * ds.foldl (fun acc c => acc * 10 + digitVal c) 0)

/-- `parseInt(x) || 0`: `NaN` (and `0` itself) collapse to `0`. -/
def parseIntOrZero (s : String) : ℤ := (jsParseInt s).getD 0

/-- The report-site experience policy (`geminiParser.ts` lines
1052–1054): `parseInt(candidate.experience || '0')` and
`parseInt(jd.experience || '0')` compared with `>=`; only the *empty*
string is defaulted to `'0'`, and a `NaN` on either side makes the
JavaScript comparison false, yielding `"Not Qualified"`. -/
def experienceResult (candidateExp jdExp : String) : String :=
  let c := jsParseInt (if candidateExp = "" then "0" else candidateExp)
  let j := jsParseInt (if jdExp = "" then "0" else jdExp)
  match c, j with
  | some a, some b => if a ≥ b then "Qualified" else "Not Qualified"
  | _, _ => "Not Qualified"

end GeminiParser

namespace CandidateTable

/-- `getExperienceResult` (`CandidateTable.tsx` lines 153–162):
qualified exactly when the candidate's years (defaulting to 0) reach the
requirement's years (defaulting to 0). -/
def getExperienceResult (candidateExp jdExp : String) : String :=
  let candidateYears := GeminiParser.parseIntOrZero candidateExp
  let jdYears := GeminiParser.parseIntOrZero jdExp
  if candidateYears ≥ jdYears then "Qualified" else "Not Qualified"

end CandidateTable

namespace ParsingHistory

/-- `getExperienceResult` (`ParsingHistory.tsx` lines 166–174): qualified
exactly when the two year counts (each defaulting to 0) differ by at most
one. -/
def getExperienceResult (candidateExp jdExp : String) : String :=
  let candidateYears := GeminiParser.parseIntOrZero candidateExp
  let jdYears := GeminiParser.parseIntOrZero jdExp
  if |candidateYears - jdYears| ≤ 1 then "Qualified" else "Not Qualified"

end ParsingHistory

/-!
## Claim-level definitions

Concrete claim inputs, and the handful of definitions that follow the
specification's words (clearly marked) for comparison against the code. -/

/-- The digit sequence of an extracted phone string. -/
def digitsOfStr (s : String) : List Char := s.data.filter Char.isDigit

/-- Modelled from the spec: the validity conditions §4.2 states for
`isValidEmail` — length 5–100, exactly one `@`, local part 1–64
characters over `[A-Za-z0-9._%-]` with no leading/trailing/doubled dot,
domain 1–255 characters with no leading/trailing dot or hyphen, no
doubled dot, at least one dot and a final label of at least 2 characters,
and no whitespace anywhere.  This is the spec-side notion of a valid
email used to compare against the code's `isValidEmail`. -/
def specShapeChecks (e l d : List Char) : Bool :=
  1 ≤ l.length && l.length ≤ 64 && l.all ContactExtractor.localChar &&
  !(l.head? = some '.') && !(l.getLast? = some '.') &&
  !(containsSub l ['.', '.']) &&
  1 ≤ d.length && d.length ≤ 255 &&
  !(d.head? = some '.') && !(d.getLast? = some '.') &&
  !(d.head? = some '-') && !(d.getLast? = some '-') &&
  !(containsSub d ['.', '.']) && d.contains '.' &&
  (match (splitChar '.' d).getLast? with
   | some tld => 2 ≤ tld.length
   | none => false) &&
  !(e.any jsWs)

/-- Modelled from the spec (continued): the whole shape predicate. -/
def specValidEmailShape (email : String) : Bool :=
  let e := email.data
  5 ≤ e.length && e.length ≤ 100 &&
  e.count '@' = 1 &&
  (match splitChar '@' e with
   | [l, d] => specShapeChecks e l d
   | _ => false)

/-- The placeholder test on the decomposed address. -/
def placeholderShort (e l : List Char) : Bool :=
  ContactExtractor.invalidDomains.any
    (fun d => d.data.isSuffixOf e && l.length < 3)

/-- The placeholder rejection actually implemented by the code: the whole
address merely *ends with* one of the placeholder domain strings (so
`ab@myexample.com` is caught too) and the local part is shorter than 3
characters. -/
def endsWithPlaceholderShortLocal (email : String) : Bool :=
  match splitChar '@' email.data with
  | [l, _] => placeholderShort email.data l
  | _ => false

/-- The input of the C2 testable property. -/
def c2text : String :=
  "Software Engineer 01/2018 - 06/2020, Senior Engineer 07/2020 - Present"

/-- A text whose work history is two valid MM/YYYY periods separated by a
gap of about two years (no `YYYY - YYYY|present` substring matches the
tier-2 regex, so the work-history reconciliation is reached). -/
def c3textMMYYYY : String :=
  "Engineer A 01/2015 - 06/2016 Engineer B 07/2018 - 08/2019"

/-- A text whose work history is two valid YYYY–YYYY periods separated by
a gap of about two years; the tier-2 single year-range regex matches its
first range. -/
def c3textYYYY : String :=
  "Engineer 2015 - 2016 then Engineer 2019 - 2020"

/-- The two work periods the date-range scan of
`calculateExperienceFromWorkHistory` yields on `c3textYYYY` (a bare year
parses as January 1st for a start and December 31st for an end). -/
def c3yyyyPeriods : List GeminiParser.WorkPeriod :=
  [⟨⟨2015, 0, 1⟩, ⟨2016, 11, 31⟩⟩, ⟨⟨2019, 0, 1⟩, ⟨2020, 11, 31⟩⟩]

/-- The digit-sequence property of claim C6: never one of the five fake
sequences, nor any single repeated digit. -/
def acceptableDigits (ds : List Char) : Prop :=
  ds ∉ ContactExtractor.fakeSequences ∧ ContactExtractor.allSameDigit ds = false


/-!
## General lemmas
-/

theorem mem_collapseRuns {p : Char → Bool} {rep c : Char} :
    ∀ {l : List Char} {b : Bool}, c ∈ collapseRuns p rep b l →
      c = rep ∨ (c ∈ l ∧ p c = false) := by
  intro l
  induction l with
  | nil => intro b h; simp [collapseRuns] at h
  | cons x t ih =>
    intro b h
    simp only [collapseRuns] at h
    by_cases hx : p x
    · simp only [hx, if_true] at h
      by_cases hb : b
      · subst hb
        simp only [if_true] at h
        rcases ih h with h' | ⟨hm, hp⟩
        · exact Or.inl h'
        · exact Or.inr ⟨List.mem_cons_of_mem _ hm, hp⟩
      · simp only [hb, if_false] at h
        rcases List.mem_cons.mp h with rfl | h'
        · exact Or.inl rfl
        · rcases ih h' with h'' | ⟨hm, hp⟩
          · exact Or.inl h''
          · exact Or.inr ⟨List.mem_cons_of_mem _ hm, hp⟩
    · simp only [hx, if_false] at h
      rcases List.mem_cons.mp h with rfl | h'
      · exact Or.inr ⟨List.mem_cons_self _ _, by simpa using hx⟩
      · rcases ih h' with h'' | ⟨hm, hp⟩
        · exact Or.inl h''
        · exact Or.inr ⟨List.mem_cons_of_mem _ hm, hp⟩

theorem mem_trimL {c : Char} {l : List Char} (h : c ∈ trimL l) : c ∈ l := by
  unfold trimL at h
  rw [List.mem_reverse] at h
  have h1 := (List.dropWhile_sublist (p := jsWs)
    (l := (l.dropWhile jsWs).reverse)).mem h
  rw [List.mem_reverse] at h1
  exact (List.dropWhile_sublist (p := jsWs) (l := l)).mem h1

theorem splitChar_of_not_mem {sep : Char} :
    ∀ {l : List Char}, (∀ c ∈ l, c ≠ sep) → splitChar sep l = [l] := by
  intro l
  induction l with
  | nil => intro _; rfl
  | cons x t ih =>
    intro h
    have hx : x ≠ sep := h x (List.mem_cons_self _ _)
    have ht := ih (fun c hc => h c (List.mem_cons_of_mem _ hc))
    simp only [splitChar, ht, hx, if_false]

/-!
## Claim C10
-/

/-- C10 (confirmed): `extractContactInfo` collapses every whitespace run
— newlines included — to a single space before invoking the email and
phone extractors, so the text those extractors receive contains no
newline character at all, and splitting it on `'\n'` (the first step of
the keyword-proximity and header-area line strategies) yields the entire
document as one single line. -/
theorem extractContactInfoInput_single_line (text : String) :
    (ContactExtractor.extractContactInfoInput text).data.all
      (fun c => !(c = '\n')) = true ∧
    splitChar '\n' (ContactExtractor.extractContactInfoInput text).data =
      [(ContactExtractor.extractContactInfoInput text).data] := by
  have key : ∀ c ∈ (ContactExtractor.extractContactInfoInput text).data,
      c ≠ '\n' := by
    intro c hc
    have hc' : c ∈ trimL (collapseRuns
        (fun c => jsWs c && c ≠ '\r' && c ≠ '\n') ' ' false
        (collapseRuns jsWs ' ' false text.data)) := hc
    have h2 := mem_trimL hc'
    rcases mem_collapseRuns h2 with rfl | ⟨h3, _⟩
    · decide
    · rcases mem_collapseRuns h3 with rfl | ⟨_, hp⟩
      · decide
      · intro hEq
        subst hEq
        simp [jsWs] at hp
  constructor
  · rw [List.all_eq_true]
    intro c hc
    simpa using key c hc
  · exact splitChar_of_not_mem key

/-!
## Claim C5
-/

/-- C5 counterexample: at the report call site, a non-numeric candidate
experience string together with an empty requirement yields
`"Not Qualified"`, although the claim's reading — parse as integer with
default 0 — would make the candidate qualified (0 ≥ 0). -/
theorem experienceResult_report_counterexample :
    GeminiParser.experienceResult "abc" "" = "Not Qualified" ∧
    GeminiParser.parseIntOrZero "abc" ≥ GeminiParser.parseIntOrZero "" ∧
    ("Not Qualified" : String) ≠ "Qualified" := by
  refine ⟨by decide, by decide, by decide⟩

/-- C5 (amended): the candidate-table site qualifies exactly when the
default-0 parses satisfy `candidate ≥ required`, and the parsing-history
site exactly when the default-0 parses differ by at most 1; the report
site qualifies exactly when *both* strings (with only the empty string
defaulted to `"0"`) parse to numbers with `candidate ≥ required` — a
non-numeric non-empty string parses to `NaN` there and always yields
`"Not Qualified"`.  Every site otherwise returns `"Not Qualified"`. -/
theorem experience_qualification_policies (c j : String) :
    (CandidateTable.getExperienceResult c j = "Qualified" ↔
      GeminiParser.parseIntOrZero c ≥ GeminiParser.parseIntOrZero j) ∧
    (ParsingHistory.getExperienceResult c j = "Qualified" ↔
      |GeminiParser.parseIntOrZero c - GeminiParser.parseIntOrZero j| ≤ 1) ∧
    (GeminiParser.experienceResult c j = "Qualified" ↔
      ∃ a b : ℤ,
        GeminiParser.jsParseInt (if c = "" then "0" else c) = some a ∧
        GeminiParser.jsParseInt (if j = "" then "0" else j) = some b ∧
        a ≥ b) ∧
    (CandidateTable.getExperienceResult c j = "Qualified" ∨
      CandidateTable.getExperienceResult c j = "Not Qualified") ∧
    (ParsingHistory.getExperienceResult c j = "Qualified" ∨
      ParsingHistory.getExperienceResult c j = "Not Qualified") ∧
    (GeminiParser.experienceResult c j = "Qualified" ∨
      GeminiParser.experienceResult c j = "Not Qualified") := by
  have e1 : CandidateTable.getExperienceResult c j =
      (if GeminiParser.parseIntOrZero c ≥ GeminiParser.parseIntOrZero j
       then "Qualified" else "Not Qualified") := rfl
  have e2 : ParsingHistory.getExperienceResult c j =
      (if |GeminiParser.parseIntOrZero c - GeminiParser.parseIntOrZero j| ≤ 1
       then "Qualified" else "Not Qualified") := rfl
  have e3 : GeminiParser.experienceResult c j =
      (match GeminiParser.jsParseInt (if c = "" then "0" else c),
             GeminiParser.jsParseInt (if j = "" then "0" else j) with
       | some a, some b => if a ≥ b then "Qualified" else "Not Qualified"
       | _, _ => "Not Qualified") := rfl
  refine ⟨?_, ?_, ?_, ?_, ?_, ?_⟩
  · rw [e1]; split_ifs with h
    · exact iff_of_true rfl h
    · exact iff_of_false (by decide) h
  · rw [e2]; split_ifs with h
    · exact iff_of_true rfl h
    · exact iff_of_false (by decide) h
  · rw [e3]
    generalize GeminiParser.jsParseInt (if c = "" then "0" else c) = x
    generalize GeminiParser.jsParseInt (if j = "" then "0" else j) = y
    split
    · rename_i a b
      split_ifs with h
      · exact iff_of_true rfl ⟨a, b, rfl, rfl, h⟩
      · refine iff_of_false (by decide) ?_
        rintro ⟨a', b', ha, hb, hab⟩
        cases ha; cases hb; exact h hab
    · rename_i hnone
      refine iff_of_false (by decide) ?_
      rintro ⟨a', b', ha, hb, hab⟩
      exact hnone a' b' ha hb
  · rw [e1]; split_ifs <;> simp
  · rw [e2]; split_ifs <;> simp
  · rw [e3]
    generalize GeminiParser.jsParseInt (if c = "" then "0" else c) = x
    generalize GeminiParser.jsParseInt (if j = "" then "0" else j) = y
    split
    · split_ifs <;> simp
    · simp

/-!
## Claim C4
-/

/-- C4 (confirmed): an empty candidate list, an empty required list, or a
required list whose entries disappear under the non-string filter all make
`calculateMatchPercentage` return 0 — a defined degenerate value, not an
error — and in particular `matchPercentage([], ["python"]) = 0` and
`matchPercentage(["python"], []) = 0`. -/
theorem matchPercentage_degenerate_zero :
    Matcher.calculateMatchPercentage [] [Matcher.SkillVal.str "python"] = 0 ∧
    Matcher.calculateMatchPercentage [Matcher.SkillVal.str "python"] [] = 0 ∧
    (∀ rs : List Matcher.SkillVal, Matcher.calculateMatchPercentage [] rs = 0) ∧
    (∀ cs : List Matcher.SkillVal, Matcher.calculateMatchPercentage cs [] = 0) ∧
    (∀ cs rs : List Matcher.SkillVal,
      (Matcher.filterStrings rs).map Matcher.normSkill = [] →
      Matcher.calculateMatchPercentage cs rs = 0) := by
  refine ⟨by decide, by decide, ?_, ?_, ?_⟩
  · intro rs
    unfold Matcher.calculateMatchPercentage
    split
    · rfl
    · simp
  · intro cs
    unfold Matcher.calculateMatchPercentage
    simp
  · intro cs rs h
    unfold Matcher.calculateMatchPercentage
    split
    · rfl
    · split
      · rfl
      · rw [h]
        simp

/-- Witness for C4: the filtered-to-empty hypothesis discharged at a
required list holding a single non-string entry. -/
theorem matchPercentage_degenerate_zero_witness :
    (Matcher.filterStrings [Matcher.SkillVal.nonString]).map Matcher.normSkill
      = [] ∧
    Matcher.calculateMatchPercentage [Matcher.SkillVal.str "python"]
      [Matcher.SkillVal.nonString] = 0 :=
  ⟨by decide,
   matchPercentage_degenerate_zero.2.2.2.2 [Matcher.SkillVal.str "python"]
     [Matcher.SkillVal.nonString] (by decide)⟩

/-!
## Claim C2
-/

/-- C2 counterexample: on the claimed input the tier-2 single year-range
regex already matches `"2020 - Present"` (the leftmost occurrence of
`20\d\d` followed by a dash and a year or `present`), so with today =
2026-10-11 the estimator returns `"6"` (= 2026 − 2020); the claimed value
`round(monthsBetween(2018-01, today)/12)` is `"9"`.  The merge path is
never reached, so the scanned work periods are irrelevant (passed as
`[]`). -/
theorem extractExperienceYears_c2_counterexample :
    GeminiParser.extractExperienceYears 2026 (fun _ => []) c2text = "6" ∧
    toString (jsRound
      ((GeminiParser.periodMonths ⟨⟨2018, 0, 1⟩, ⟨2026, 9, 11⟩⟩ : ℚ) / 12))
      = "9" ∧
    ("6" : String) ≠ "9" := by
  refine ⟨by decide, ?_, by decide⟩
  have h1 : GeminiParser.periodMonths ⟨⟨2018, 0, 1⟩, ⟨2026, 9, 11⟩⟩ = 106 := by
    decide
  rw [h1]
  have h2 : jsRound (((106 : ℤ) : ℚ) / 12) = 9 := by
    norm_num [jsRound]
  rw [h2]
  decide

/-- C2 (amended): on the input
"Software Engineer 01/2018 - 06/2020, Senior Engineer 07/2020 - Present"
the tier-2 single year-range regex matches `"2020 - Present"` first, so
`extractExperienceYears` returns `String(currentYear − 2020)` for every
current year and never performs the work-history merge (the result does
not depend on the scanned periods). -/
theorem extractExperienceYears_c2_amended (todayYear : ℤ)
    (scan : String → List GeminiParser.WorkPeriod) :
    GeminiParser.extractExperienceYears todayYear scan c2text =
      toString (todayYear - 2020) := by
  have h : GeminiParser.firstYearRange c2text =
      some (2020, GeminiParser.RangeEnd.openEnded) := by decide
  unfold GeminiParser.extractExperienceYears
  rw [h]

/-!
## Claim C8: support lemmas
-/

theorem all_not_eq_not_any {α : Type} (l : List α) (p : α → Bool) :
    (l.all fun x => !p x) = !l.any p := by
  induction l with
  | nil => rfl
  | cons x t ih => simp [List.all_cons, List.any_cons, ih]

theorem containsSub_iff {h n : List Char} :
    containsSub h n = true ↔ n <:+: h := by
  induction h with
  | nil =>
    simp [containsSub, List.isEmpty_iff]
  | cons c t ih =>
    simp [containsSub, List.isPrefixOf_iff_prefix, ih, List.infix_cons_iff]

theorem splitChar_ne_nil (sep : Char) (l : List Char) :
    splitChar sep l ≠ [] := by
  cases l with
  | nil => simp [splitChar]
  | cons c t =>
    simp only [splitChar]
    cases hs : splitChar sep t with
    | nil => simp
    | cons h' t' => by_cases hc : c = sep <;> simp [hc]

theorem splitChar_one {sep : Char} :
    ∀ {t d : List Char}, splitChar sep t = [d] → t = d ∧ sep ∉ d := by
  intro t
  induction t with
  | nil =>
    intro d h
    simp only [splitChar, List.cons.injEq, and_true] at h
    subst h
    exact ⟨rfl, by simp⟩
  | cons c t ih =>
    intro d h
    simp only [splitChar] at h
    cases hs : splitChar sep t with
    | nil => exact absurd hs (splitChar_ne_nil sep t)
    | cons h' t' =>
      rw [hs] at h
      by_cases hc : c = sep
      · simp [hc] at h
      · simp only [hc, if_false] at h
        obtain ⟨h1, h2⟩ := List.cons.injEq _ _ _ _ ▸ h
        subst h2
        obtain ⟨ht, hsep⟩ := ih hs
        subst ht
        subst h1
        refine ⟨rfl, ?_⟩
        simp only [List.mem_cons]
        rintro (h | h)
        · exact hc h.symm
        · exact hsep h

theorem splitChar_two {sep : Char} :
    ∀ {e l d : List Char}, splitChar sep e = [l, d] →
      e = l ++ sep :: d ∧ sep ∉ l ∧ sep ∉ d := by
  intro e
  induction e with
  | nil => intro l d h; simp [splitChar] at h
  | cons c t ih =>
    intro l d h
    simp only [splitChar] at h
    cases hs : splitChar sep t with
    | nil => exact absurd hs (splitChar_ne_nil sep t)
    | cons h' t' =>
      rw [hs] at h
      by_cases hc : c = sep
      · simp only [hc, if_true, List.cons.injEq] at h
        obtain ⟨h1, h2, h3⟩ := h
        subst h1
        subst h3
        obtain ⟨ht, hd⟩ := splitChar_one (by rw [hs, h2])
        subst ht
        exact ⟨by simp [hc], by simp, hd⟩
      · simp only [hc, if_false, List.cons.injEq] at h
        obtain ⟨h1, h2⟩ := h
        have h2' : splitChar sep t = [h', d] := by
          rw [hs]
          cases t' with
          | nil => simp at h2
          | cons y ys =>
            obtain ⟨hy, hys⟩ := List.cons.injEq _ _ _ _ ▸ h2
            simp [hy, hys]
        obtain ⟨ht, hl', hd⟩ := ih h2'
        subst ht
        subst h1
        refine ⟨rfl, ?_, hd⟩
        simp only [List.mem_cons]
        rintro (h | h)
        · exact hc h.symm
        · exact hl' h

theorem append_cons_inj {a : Char} :
    ∀ {s l u d : List Char}, s ++ a :: u = l ++ a :: d →
      a ∉ s → a ∉ l → s = l ∧ u = d := by
  intro s
  induction s with
  | nil =>
    intro l u d h _ hl
    cases l with
    | nil => simpa using h
    | cons x l' =>
      simp only [List.nil_append, List.cons_append, List.cons.injEq] at h
      exact absurd (h.1 ▸ List.mem_cons_self x l') (h.1 ▸ hl)
  | cons c s' ih =>
    intro l u d h hs hl
    cases l with
    | nil =>
      simp only [List.cons_append, List.nil_append, List.cons.injEq] at h
      obtain ⟨rfl, -⟩ := h
      exact absurd (List.mem_cons_self _ _) hs
    | cons x l' =>
      simp only [List.cons_append, List.cons.injEq] at h
      obtain ⟨rfl, h2⟩ := h
      have hs' : a ∉ s' := fun hm => hs (List.mem_cons_of_mem _ hm)
      have hl' : a ∉ l' := fun hm => hl (List.mem_cons_of_mem _ hm)
      obtain ⟨rfl, rfl⟩ := ih h2 hs' hl'
      exact ⟨rfl, rfl⟩

theorem count_append_cons (a : Char) (s u : List Char) :
    List.count a (s ++ a :: u) = List.count a s + List.count a u + 1 := by
  simp [List.count_append, List.count_cons]
  omega

theorem containsSub_sep_then {a x : Char} {l d : List Char}
    (hl : a ∉ l) (hd : a ∉ d) :
    containsSub (l ++ a :: d) [a, x] = true ↔ d.head? = some x := by
  rw [containsSub_iff]
  constructor
  · rintro ⟨s, t, hst⟩
    have hst' : s ++ a :: (x :: t) = l ++ a :: d := by simpa using hst
    have hcount : List.count a (s ++ a :: (x :: t)) =
        List.count a (l ++ a :: d) := by rw [hst']
    rw [count_append_cons, count_append_cons] at hcount
    have hzl : List.count a l = 0 := List.count_eq_zero.mpr hl
    have hzd : List.count a d = 0 := List.count_eq_zero.mpr hd
    have hzs : a ∉ s := List.count_eq_zero.mp (by omega)
    obtain ⟨_, hxd⟩ := append_cons_inj hst' hzs hl
    rw [← hxd]
    rfl
  · intro h
    cases d with
    | nil => simp at h
    | cons x' t =>
      simp only [List.head?_cons, Option.some.injEq] at h
      subst h
      exact ⟨l, t, by simp⟩

theorem containsSub_then_sep {a x : Char} {l d : List Char}
    (hl : a ∉ l) (hd : a ∉ d) :
    containsSub (l ++ a :: d) [x, a] = true ↔ l.getLast? = some x := by
  rw [containsSub_iff]
  constructor
  · rintro ⟨s, t, hst⟩
    have hst' : (s ++ [x]) ++ a :: t = l ++ a :: d := by
      simpa [List.append_assoc] using hst
    have hcount : List.count a ((s ++ [x]) ++ a :: t) =
        List.count a (l ++ a :: d) := by rw [hst']
    rw [count_append_cons, count_append_cons] at hcount
    have hzl : List.count a l = 0 := List.count_eq_zero.mpr hl
    have hzd : List.count a d = 0 := List.count_eq_zero.mpr hd
    have hzs : a ∉ s ++ [x] := List.count_eq_zero.mp (by omega)
    obtain ⟨hsl, _⟩ := append_cons_inj hst' hzs hl
    rw [← hsl]
    simp
  · intro h
    have hne : l ≠ [] := by
      intro hnil
      rw [hnil] at h
      simp at h
    obtain ⟨l', hlast⟩ : ∃ l', l = l' ++ [x] := by
      refine ⟨l.dropLast, ?_⟩
      have := List.dropLast_append_getLast hne
      rw [List.getLast?_eq_getLast l hne, Option.some.injEq] at h
      rw [h] at this
      exact this.symm
    subst hlast
    exact ⟨l', d, by simp⟩

theorem splitChar_length (sep : Char) :
    ∀ l : List Char, (splitChar sep l).length = l.count sep + 1 := by
  intro l
  induction l with
  | nil => rfl
  | cons c t ih =>
    simp only [splitChar]
    cases hs : splitChar sep t with
    | nil => exact absurd hs (splitChar_ne_nil sep t)
    | cons h' t' =>
      rw [hs] at ih
      have ih' : t'.length + 1 = List.count sep t + 1 := by simpa using ih
      by_cases hc : c = sep
      · simp [hc, List.count_cons]
        omega
      · simp [hc, List.count_cons]
        omega


theorem isValidEmail_eq_checks {e : String} {l d : List Char}
    (hlen : ¬(e.data.length < 5 ∨ 100 < e.data.length))
    (hcount : e.data.count '@' = 1)
    (hsplit : splitChar '@' e.data = [l, d]) :
    ContactExtractor.isValidEmail e = ContactExtractor.emailChecks e.data l d := by
  simp only [ContactExtractor.isValidEmail]
  rw [if_neg (by simpa only [Bool.or_eq_true, decide_eq_true_eq] using hlen)]
  rw [if_neg (fun hne => hne hcount)]
  rw [hsplit]

theorem specShape_decomp {e : String} (h : specValidEmailShape e = true) :
    5 ≤ e.data.length ∧ e.data.length ≤ 100 ∧ e.data.count '@' = 1 ∧
    ∃ l d, splitChar '@' e.data = [l, d] ∧
      specShapeChecks e.data l d = true := by
  simp only [specValidEmailShape, Bool.and_eq_true, decide_eq_true_eq,
    and_assoc] at h
  obtain ⟨h5, h100, hcount, hmatch⟩ := h
  refine ⟨h5, h100, hcount, ?_⟩
  obtain ⟨l, d, hsp⟩ := List.length_eq_two.mp
    (show (splitChar '@' e.data).length = 2 by
      rw [splitChar_length, hcount])
  rw [hsp] at hmatch
  exact ⟨l, d, hsp, by simpa using hmatch⟩

theorem emailChecks_eq_placeholder {e l d : List Char}
    (he : e = l ++ '@' :: d) (hl : '@' ∉ l) (hd : '@' ∉ d)
    (hsh : specShapeChecks e l d = true) :
    ContactExtractor.emailChecks e l d = !placeholderShort e l := by
  simp only [specShapeChecks, Bool.and_eq_true, and_assoc] at hsh
  obtain ⟨p1, p2, p3, p4, p5, p6, p7, p8, p9, p10, p11, p12, p13, p14,
    p15, p16⟩ := hsh
  have hl1 : 1 ≤ l.length := of_decide_eq_true p1
  have hlne : l ≠ [] := by
    intro h0; rw [h0] at hl1; simp at hl1
  have hbl : (!l.isEmpty) = true := by simp [List.isEmpty_iff, hlne]
  have hd1 : 1 ≤ d.length := of_decide_eq_true p7
  have hdne : d ≠ [] := by
    intro h0; rw [h0] at hd1; simp at hd1
  have hbd : (!d.isEmpty) = true := by simp [List.isEmpty_iff, hdne]
  have hdot : '.' ∈ d := by
    have := p14
    simpa [List.elem_iff] using this
  have hsl2 : (decide ((splitChar '.' d).length ≥ 2)) = true :=
    decide_eq_true (by
      rw [splitChar_length]
      have : 0 < d.count '.' := List.count_pos_iff.mpr hdot
      omega)
  have hp4 : ¬(d.head? = some '.') := by
    have h9 : (decide (d.head? = some '.')) = false := by
      simpa using p9
    exact of_decide_eq_false h9
  have hp5 : ¬(l.getLast? = some '.') := by
    have h5 : (decide (l.getLast? = some '.')) = false := by
      simpa using p5
    exact of_decide_eq_false h5
  have hat : containsSub e ['@', '.'] = false := by
    rw [he]
    exact Bool.eq_false_iff.mpr
      fun htrue => hp4 ((containsSub_sep_then hl hd).mp htrue)
  have hdotat : containsSub e ['.', '@'] = false := by
    rw [he]
    exact Bool.eq_false_iff.mpr
      fun htrue => hp5 ((containsSub_then_sep hl hd).mp htrue)
  simp only [ContactExtractor.emailChecks, hbl, hbd, p2, p3, p4, p5, p6,
    p8, p9, p10, p11, p12, p13, p14, p15, p16, hsl2, hat, hdotat,
    Bool.not_false, Bool.true_and, Bool.and_true]
  rw [all_not_eq_not_any]
  rfl

/-!
## Claim C8
-/

/-- C8 counterexample: `ab@myexample.com` is a well-formed address (final
label 3 characters, no doubled dots, all bounds met) whose domain
`myexample.com` is *not* one of the placeholder domains, yet
`isValidEmail` rejects it: the code tests `email.endsWith(placeholder)`
on the whole address, and `myexample.com` ends with `example.com` while
the local part `ab` is shorter than 3 characters. -/
theorem isValidEmail_endsWith_counterexample :
    ContactExtractor.isValidEmail "ab@myexample.com" = false ∧
    specValidEmailShape "ab@myexample.com" = true ∧
    ContactExtractor.invalidDomains.contains "myexample.com" = false := by
  refine ⟨by decide, by decide, by decide⟩

/-- C8 (amended): for every well-formed address (in the sense of the
spec's validation list, `specValidEmailShape`), `isValidEmail` accepts it
exactly unless the *whole address ends with* one of the known placeholder
domain strings while the local part is shorter than 3 characters; and it
returns false for any string containing whitespace, not containing
exactly one `@`, violating the total length bounds 5–100, or whose local
part exceeds 64 or domain 255 characters. -/
theorem isValidEmail_characterisation :
    (∀ e : String, specValidEmailShape e = true →
      ContactExtractor.isValidEmail e = !endsWithPlaceholderShortLocal e) ∧
    (∀ e : String, e.data.any jsWs = true →
      ContactExtractor.isValidEmail e = false) ∧
    (∀ e : String, e.data.count '@' ≠ 1 →
      ContactExtractor.isValidEmail e = false) ∧
    (∀ e : String, e.data.length < 5 ∨ 100 < e.data.length →
      ContactExtractor.isValidEmail e = false) ∧
    (∀ (e : String) (l d : List Char), splitChar '@' e.data = [l, d] →
      64 < l.length ∨ 255 < d.length →
      ContactExtractor.isValidEmail e = false) := by
  refine ⟨?_, ?_, ?_, ?_, ?_⟩
  · intro e h
    obtain ⟨h5, h100, hcount, l, d, hsplit, hchecks⟩ := specShape_decomp h
    rw [isValidEmail_eq_checks (by omega) hcount hsplit]
    obtain ⟨he, hl, hd⟩ := splitChar_two hsplit
    have hgoal : (!endsWithPlaceholderShortLocal e) =
        (!placeholderShort e.data l) := by
      simp only [endsWithPlaceholderShortLocal, hsplit]
    rw [hgoal]
    exact emailChecks_eq_placeholder he hl hd hchecks
  · intro e h
    simp only [ContactExtractor.isValidEmail]
    split
    · rfl
    · split
      · rfl
      · split
        · rename_i l d
          simp only [ContactExtractor.emailChecks, h, Bool.not_true,
            Bool.and_false, Bool.false_and]
        · rfl
  · intro e h
    simp only [ContactExtractor.isValidEmail]
    split
    · rfl
    · rfl
  · intro e h
    simp only [ContactExtractor.isValidEmail]
    rw [if_pos (by simpa only [Bool.or_eq_true, decide_eq_true_eq] using h)]
  · intro e l d hsplit h
    simp only [ContactExtractor.isValidEmail]
    split
    · rfl
    · split
      · rfl
      · rw [hsplit]
        rcases h with h | h
        · have h64 : ¬(l.length ≤ 64) := by omega
          simp [ContactExtractor.emailChecks, h64]
        · have h255 : ¬(d.length ≤ 255) := by omega
          simp [ContactExtractor.emailChecks, h255]

/-- Witness for C8: the characterisation applied at `john@gmail.com`,
whose shape hypothesis is discharged by evaluation. -/
theorem isValidEmail_characterisation_witness :
    specValidEmailShape "john@gmail.com" = true ∧
    ContactExtractor.isValidEmail "john@gmail.com" =
      !endsWithPlaceholderShortLocal "john@gmail.com" :=
  ⟨by decide, isValidEmail_characterisation.1 "john@gmail.com" (by decide)⟩

/-!
## Claims C6 and C7: support lemmas
-/

theorem mem_setAppend {acc : List String} {x s : String}
    (h : s ∈ setAppend acc x) : s ∈ acc ∨ s = x := by
  unfold setAppend at h
  split at h
  · exact Or.inl h
  · rcases List.mem_append.mp h with h' | h'
    · exact Or.inl h'
    · exact Or.inr (List.mem_singleton.mp h')

theorem mem_foldl_inv {α : Type} {P : String → Prop}
    (step : List String → α → List String) :
    ∀ l : List α,
      (∀ acc x, x ∈ l → ∀ s, s ∈ step acc x → s ∈ acc ∨ P s) →
      ∀ acc s, s ∈ l.foldl step acc → s ∈ acc ∨ P s := by
  intro l
  induction l with
  | nil => intro _ acc s h; exact Or.inl h
  | cons x t ih =>
    intro hstep acc s h
    rcases ih (fun acc' x' hx' => hstep acc' x' (List.mem_cons_of_mem _ hx'))
        (step acc x) s h with h' | hp
    · exact hstep acc x (List.mem_cons_self _ _) s h'
    · exact Or.inr hp

theorem filter_idem (p : Char → Bool) (l : List Char) :
    (l.filter p).filter p = l.filter p := by
  rw [List.filter_filter]
  exact List.filter_congr fun a _ => by cases h : p a <;> simp [h]

theorem CE_isValidPhone_facts {cleaned digits : List Char}
    (hv : ContactExtractor.isValidPhone cleaned digits = true) :
    ContactExtractor.allSameDigit digits = false ∧
    digits ∉ ContactExtractor.fakeSequences ∧
    (digits.length = 10 →
      ContactExtractor.startsSixToNine digits = true) := by
  simp only [ContactExtractor.isValidPhone, Bool.and_eq_true, and_assoc] at hv
  obtain ⟨c1, c2, c3, c4, c5, c6, c7⟩ := hv
  refine ⟨by simpa using c3, ?_, ?_⟩
  · intro hmem
    have hcont : ContactExtractor.fakeSequences.contains digits = false := by
      simpa using c4
    have h2 : ContactExtractor.fakeSequences.contains digits = true :=
      List.elem_eq_true_of_mem hmem
    rw [h2] at hcont
    cases hcont
  · intro h10
    rw [if_pos h10] at c6
    exact c6

theorem DP_isValidPhone_facts {cleaned digits : List Char}
    (hv : DocParser.isValidPhone cleaned digits = true) :
    ContactExtractor.allSameDigit digits = false ∧
    digits ∉ ContactExtractor.fakeSequences ∧
    (digits.length = 10 →
      ContactExtractor.startsSixToNine digits = true) := by
  simp only [DocParser.isValidPhone, Bool.and_eq_true, and_assoc] at hv
  obtain ⟨c1, c2, c3, c4, c5, c6⟩ := hv
  have hsame : ContactExtractor.allSameDigit digits = false := by simpa using c3
  have hc4 : ¬digits = "0123456789".data ∧ ¬digits = "1234567890".data ∧
      ¬digits = "9876543210".data := by simpa [and_assoc] using c4
  refine ⟨hsame, ?_, ?_⟩
  · intro hmem
    simp only [ContactExtractor.fakeSequences, List.mem_cons,
      List.not_mem_nil, or_false] at hmem
    rcases hmem with h | h | h | h | h
    · exact hc4.2.1 (by simpa using h)
    · exact hc4.1 (by simpa using h)
    · exact hc4.2.2 (by simpa using h)
    · rw [h] at hsame; exact absurd hsame (by decide)
    · rw [h] at hsame; exact absurd hsame (by decide)
  · intro h10
    rw [if_pos h10] at c6
    exact c6

theorem niner_prefix_acceptable {digits : List Char}
    (hlen : digits.length = 10) :
    acceptableDigits ('9' :: '1' :: digits) := by
  constructor
  · intro hmem
    simp only [ContactExtractor.fakeSequences, List.mem_cons,
      List.not_mem_nil, or_false] at hmem
    rcases hmem with h | h | h | h | h <;>
      (have hl := congrArg List.length h; simp at hl; omega)
  · have hne : ¬(('1' : Char) = '9') := by decide
    simp [ContactExtractor.allSameDigit, List.all_cons, hne]

theorem formatPhone_shape (cleaned : List Char)
    (h10 : 10 ≤ (cleaned.filter Char.isDigit).length)
    (h15 : (cleaned.filter Char.isDigit).length ≤ 15)
    (h69 : (cleaned.filter Char.isDigit).length = 10 →
      ContactExtractor.startsSixToNine (cleaned.filter Char.isDigit) = true) :
    ContactExtractor.formatPhone cleaned (cleaned.filter Char.isDigit) ≠ [] ∧
    (ContactExtractor.formatPhone cleaned
      (cleaned.filter Char.isDigit)).head? = some '+' ∧
    ((ContactExtractor.formatPhone cleaned
        (cleaned.filter Char.isDigit)).filter Char.isDigit =
          cleaned.filter Char.isDigit ∨
      ((ContactExtractor.formatPhone cleaned
          (cleaned.filter Char.isDigit)).filter Char.isDigit =
            '9' :: '1' :: cleaned.filter Char.isDigit ∧
        (cleaned.filter Char.isDigit).length = 10)) := by
  have hplusd : Char.isDigit '+' = false := by decide
  have h9d : Char.isDigit '9' = true := by decide
  have h1d : Char.isDigit '1' = true := by decide
  unfold ContactExtractor.formatPhone
  split_ifs with hplus hcase2 hcase3 hcase4 hcase5
  · refine ⟨?_, hplus, Or.inl rfl⟩
    intro h0
    rw [h0] at hplus
    simp at hplus
  · have hc : (cleaned.filter Char.isDigit).length = 10 ∧
        ContactExtractor.startsSixToNine (cleaned.filter Char.isDigit)
          = true := by simpa using hcase2
    refine ⟨by simp, by simp, Or.inr ⟨?_, hc.1⟩⟩
    simp [List.filter_cons, hplusd, h9d, h1d, filter_idem]
  · refine ⟨by simp, by simp, Or.inl ?_⟩
    simp [List.filter_cons, hplusd, filter_idem]
  · refine ⟨by simp, by simp, Or.inl ?_⟩
    simp [List.filter_cons, hplusd, filter_idem]
  · refine ⟨by simp, by simp, Or.inl ?_⟩
    simp [List.filter_cons, hplusd, filter_idem]
  · exfalso
    by_cases hl : (cleaned.filter Char.isDigit).length = 10
    · exact hcase2 (by simp [hl, h69 hl])
    · exact hcase5 (by
        simp only [Bool.and_eq_true, decide_eq_true_eq]
        omega)

theorem CE_cleanPhone_facts {s : String}
    (hne : ContactExtractor.cleanPhone s ≠ "") :
    (ContactExtractor.cleanPhone s).data.head? = some '+' ∧
    10 ≤ (digitsOfStr (ContactExtractor.cleanPhone s)).length ∧
    (digitsOfStr (ContactExtractor.cleanPhone s)).length ≤ 15 ∧
    acceptableDigits (digitsOfStr (ContactExtractor.cleanPhone s)) := by
  simp only [ContactExtractor.cleanPhone] at hne ⊢
  split_ifs at hne ⊢ with h1 h2
  · exact absurd rfl hne
  · exact absurd rfl hne
  · have hb : ¬(((ContactExtractor.cleanedOf s).filter Char.isDigit).length
        < 10) ∧
        ¬(15 < ((ContactExtractor.cleanedOf s).filter Char.isDigit).length)
        := by simpa using h1
    have hvalid : ContactExtractor.isValidPhone (ContactExtractor.cleanedOf s)
        ((ContactExtractor.cleanedOf s).filter Char.isDigit) = true := by
      simpa using h2
    obtain ⟨hsame, hfake, h69⟩ := CE_isValidPhone_facts hvalid
    obtain ⟨hout, hhead, hcases⟩ :=
      formatPhone_shape (ContactExtractor.cleanedOf s)
        (by omega) (by omega) h69
    simp only [digitsOfStr]
    rcases hcases with heq | ⟨heq, h10len⟩
    · rw [heq]
      exact ⟨hhead, by omega, by omega, hfake, hsame⟩
    · rw [heq]
      refine ⟨hhead, by simp; omega, by simp; omega, ?_⟩
      exact niner_prefix_acceptable h10len

theorem DP_cleanPhone_facts {s : String}
    (hne : DocParser.cleanPhone s ≠ "") :
    (DocParser.cleanPhone s).data.head? = some '+' ∧
    10 ≤ (digitsOfStr (DocParser.cleanPhone s)).length ∧
    (digitsOfStr (DocParser.cleanPhone s)).length ≤ 15 ∧
    acceptableDigits (digitsOfStr (DocParser.cleanPhone s)) := by
  simp only [DocParser.cleanPhone] at hne ⊢
  split_ifs at hne ⊢ with h1 h2
  · exact absurd rfl hne
  · exact absurd rfl hne
  · have hb : ¬(((DocParser.cleanedOf s).filter Char.isDigit).length < 10) ∧
        ¬(15 < ((DocParser.cleanedOf s).filter Char.isDigit).length) := by
      simpa using h1
    have hvalid : DocParser.isValidPhone (DocParser.cleanedOf s)
        ((DocParser.cleanedOf s).filter Char.isDigit) = true := by
      simpa using h2
    obtain ⟨hsame, hfake, h69⟩ := DP_isValidPhone_facts hvalid
    obtain ⟨hout, hhead, hcases⟩ :=
      formatPhone_shape (DocParser.cleanedOf s) (by omega) (by omega) h69
    simp only [digitsOfStr, DocParser.formatPhone]
    rcases hcases with heq | ⟨heq, h10len⟩
    · rw [heq]
      exact ⟨hhead, by omega, by omega, hfake, hsame⟩
    · rw [heq]
      refine ⟨hhead, by simp; omega, by simp; omega, ?_⟩
      exact niner_prefix_acceptable h10len

theorem cleanStep_inv (P : String → Prop) (f : String → String)
    (hf : ∀ x, f x ≠ "" → P (f x))
    (acc : List String) (x p : String)
    (h : p ∈ (if f x ≠ "" then setAppend acc (f x) else acc)) :
    p ∈ acc ∨ P p := by
  by_cases hcond : f x ≠ ""
  · rw [if_pos hcond] at h
    rcases mem_setAppend h with h' | rfl
    · exact Or.inl h'
    · exact Or.inr (hf x hcond)
  · rw [if_neg hcond] at h
    exact Or.inl h

theorem CE_phoneStep_inv (acc : List String) (x : String) (p : String)
    (h : p ∈ ContactExtractor.phoneStep acc x) :
    p ∈ acc ∨ (p ≠ "" ∧ p.data.head? = some '+' ∧
      10 ≤ (digitsOfStr p).length ∧ (digitsOfStr p).length ≤ 15 ∧
      acceptableDigits (digitsOfStr p)) :=
  cleanStep_inv
    (fun q => q ≠ "" ∧ q.data.head? = some '+' ∧
      10 ≤ (digitsOfStr q).length ∧ (digitsOfStr q).length ≤ 15 ∧
      acceptableDigits (digitsOfStr q))
    ContactExtractor.cleanPhone
    (fun x hx =>
      let facts := CE_cleanPhone_facts hx
      ⟨hx, facts.1, facts.2.1, facts.2.2.1, facts.2.2.2⟩)
    acc x p h

theorem DP_phoneStep_inv (acc : List String) (x : String) (p : String)
    (h : p ∈ DocParser.phoneStep acc x) :
    p ∈ acc ∨ (p ≠ "" ∧ p.data.head? = some '+' ∧
      10 ≤ (digitsOfStr p).length ∧ (digitsOfStr p).length ≤ 15 ∧
      acceptableDigits (digitsOfStr p)) :=
  cleanStep_inv
    (fun q => q ≠ "" ∧ q.data.head? = some '+' ∧
      10 ≤ (digitsOfStr q).length ∧ (digitsOfStr q).length ≤ 15 ∧
      acceptableDigits (digitsOfStr q))
    DocParser.cleanPhone
    (fun x hx =>
      let facts := DP_cleanPhone_facts hx
      ⟨hx, facts.1, facts.2.1, facts.2.2.1, facts.2.2.2⟩)
    acc x p h

theorem CE_extractPhones_inv (pc kc hc : List String) (p : String)
    (h : p ∈ ContactExtractor.extractPhonesFromText pc kc hc) :
    p ≠ "" ∧ p.data.head? = some '+' ∧
    10 ≤ (digitsOfStr p).length ∧ (digitsOfStr p).length ≤ 15 ∧
    acceptableDigits (digitsOfStr p) := by
  unfold ContactExtractor.extractPhonesFromText at h
  have step3 := mem_foldl_inv ContactExtractor.phoneStep hc
    (fun acc x _ s hs => CE_phoneStep_inv acc x s hs) _ p h
  rcases step3 with h2 | hp
  · have step2 := mem_foldl_inv ContactExtractor.phoneStep kc
      (fun acc x _ s hs => CE_phoneStep_inv acc x s hs) _ p h2
    rcases step2 with h3 | hp
    · have step1 := mem_foldl_inv ContactExtractor.phoneStep pc
        (fun acc x _ s hs => CE_phoneStep_inv acc x s hs) [] p h3
      rcases step1 with h4 | hp
      · exact absurd h4 (List.not_mem_nil p)
      · exact hp
    · exact hp
  · exact hp

theorem DP_extractPhones_inv (pc kc : List String) (p : String)
    (h : p ∈ DocParser.extractPhones pc kc) :
    p ≠ "" ∧ p.data.head? = some '+' ∧
    10 ≤ (digitsOfStr p).length ∧ (digitsOfStr p).length ≤ 15 ∧
    acceptableDigits (digitsOfStr p) := by
  unfold DocParser.extractPhones at h
  have step2 := mem_foldl_inv DocParser.phoneStep kc
    (fun acc x _ s hs => DP_phoneStep_inv acc x s hs) _ p h
  rcases step2 with h2 | hp
  · have step1 := mem_foldl_inv DocParser.phoneStep pc
      (fun acc x _ s hs => DP_phoneStep_inv acc x s hs) [] p h2
    rcases step1 with h3 | hp
    · exact absurd h3 (List.not_mem_nil p)
    · exact hp
  · exact hp

/-!
## Claim C6
-/

/-- C6 (confirmed): `isValidPhone` (both copies) rejects every digit
sequence among `1111111111`, `1234567890`, `0123456789`, `9876543210`,
`0000000000` and every single repeated digit, whatever the surrounding
candidate string; consequently no element of the list returned by either
`extractPhones` — for *any* candidate strings the regex scans could
produce — has such a digit sequence. -/
theorem extractPhones_no_fake_sequences :
    (∀ phone digits : List Char,
      digits ∈ ContactExtractor.fakeSequences ∨
        ContactExtractor.allSameDigit digits = true →
      ContactExtractor.isValidPhone phone digits = false ∧
      DocParser.isValidPhone phone digits = false) ∧
    (∀ (patternCands keywordCands headerCands : List String) (p : String),
      p ∈ ContactExtractor.extractPhonesFromText patternCands keywordCands
        headerCands →
      acceptableDigits (digitsOfStr p)) ∧
    (∀ (patternCands keywordCands : List String) (p : String),
      p ∈ DocParser.extractPhones patternCands keywordCands →
      acceptableDigits (digitsOfStr p)) := by
  refine ⟨?_, ?_, ?_⟩
  · intro phone digits hbad
    constructor
    · cases hval : ContactExtractor.isValidPhone phone digits
      · rfl
      · exfalso
        obtain ⟨hsame, hfake, _⟩ := CE_isValidPhone_facts hval
        rcases hbad with hmem | htrue
        · exact hfake hmem
        · rw [htrue] at hsame; cases hsame
    · cases hval : DocParser.isValidPhone phone digits
      · rfl
      · exfalso
        obtain ⟨hsame, hfake, _⟩ := DP_isValidPhone_facts hval
        rcases hbad with hmem | htrue
        · exact hfake hmem
        · rw [htrue] at hsame; cases hsame
  · intro pc kc hc p h
    exact (CE_extractPhones_inv pc kc hc p h).2.2.2.2
  · intro pc kc p h
    exact (DP_extractPhones_inv pc kc p h).2.2.2.2

/-- Witness for C6: a genuine candidate survives extraction and its digit
sequence is acceptable. -/
theorem extractPhones_no_fake_sequences_witness :
    ("+919876543211" ∈
      ContactExtractor.extractPhonesFromText ["98765 43211"] [] []) ∧
    acceptableDigits (digitsOfStr "+919876543211") :=
  ⟨by decide,
   extractPhones_no_fake_sequences.2.1 ["98765 43211"] [] [] "+919876543211"
     (by decide)⟩

theorem mkStr_data (l : List Char) : (⟨l⟩ : String).data = l := rfl

theorem mkStr_ne_empty {l : List Char} (h : l ≠ []) : (⟨l⟩ : String) ≠ "" := by
  intro hc
  exact h (congrArg String.data hc)

/-!
## Claim C7
-/

/-- C7 (confirmed): `cleanPhone` returns the empty string whenever the
cleaned candidate's digit count is outside [10, 15] or `isValidPhone`
fails, and otherwise `formatPhone` yields a non-empty `"+"`-prefixed
result; every string in the list returned by `extractPhones` — for any
candidate strings the regexes could produce — is therefore non-empty,
begins with `"+"`, and contains between 10 and 15 digits inclusive. -/
theorem extractPhones_shape :
    (∀ s : String,
      ((ContactExtractor.cleanedOf s).filter Char.isDigit).length < 10 ∨
      15 < ((ContactExtractor.cleanedOf s).filter Char.isDigit).length ∨
      ContactExtractor.isValidPhone (ContactExtractor.cleanedOf s)
        ((ContactExtractor.cleanedOf s).filter Char.isDigit) = false →
      ContactExtractor.cleanPhone s = "") ∧
    (∀ s : String,
      10 ≤ ((ContactExtractor.cleanedOf s).filter Char.isDigit).length →
      ((ContactExtractor.cleanedOf s).filter Char.isDigit).length ≤ 15 →
      ContactExtractor.isValidPhone (ContactExtractor.cleanedOf s)
        ((ContactExtractor.cleanedOf s).filter Char.isDigit) = true →
      ContactExtractor.cleanPhone s ≠ "" ∧
      (ContactExtractor.cleanPhone s).data.head? = some '+') ∧
    (∀ (patternCands keywordCands headerCands : List String) (p : String),
      p ∈ ContactExtractor.extractPhonesFromText patternCands keywordCands
        headerCands →
      p ≠ "" ∧ p.data.head? = some '+' ∧
      10 ≤ (digitsOfStr p).length ∧ (digitsOfStr p).length ≤ 15) := by
  refine ⟨?_, ?_, ?_⟩
  · intro s h
    simp only [ContactExtractor.cleanPhone]
    split_ifs with h1 h2
    · rfl
    · rfl
    · exfalso
      have hb : ¬(((ContactExtractor.cleanedOf s).filter Char.isDigit).length
          < 10) ∧
          ¬(15 < ((ContactExtractor.cleanedOf s).filter
            Char.isDigit).length) := by simpa using h1
      have hv : ContactExtractor.isValidPhone (ContactExtractor.cleanedOf s)
          ((ContactExtractor.cleanedOf s).filter Char.isDigit) = true := by
        simpa using h2
      rcases h with h | h | h
      · exact hb.1 h
      · exact hb.2 h
      · rw [h] at hv; cases hv
  · intro s h10 h15 hv
    have h69 := (CE_isValidPhone_facts hv).2.2
    obtain ⟨hout, hhead, _⟩ :=
      formatPhone_shape (ContactExtractor.cleanedOf s) h10 h15 h69
    simp only [ContactExtractor.cleanPhone]
    split_ifs with h1 h2
    · exfalso
      simp only [Bool.or_eq_true, decide_eq_true_eq] at h1
      rcases h1 with h | h <;> omega
    · exfalso
      have hfalse : ContactExtractor.isValidPhone
          (ContactExtractor.cleanedOf s)
          ((ContactExtractor.cleanedOf s).filter Char.isDigit) = false := by
        simpa using h2
      rw [hv] at hfalse
      cases hfalse
    · refine ⟨mkStr_ne_empty hout, ?_⟩
      rw [mkStr_data]
      exact hhead
  · intro pc kc hc p h
    have facts := CE_extractPhones_inv pc kc hc p h
    exact ⟨facts.1, facts.2.1, facts.2.2.1, facts.2.2.2.1⟩

/-- Witness for C7: the invariants instantiated on a concrete extraction. -/
theorem extractPhones_shape_witness :
    ("+919876543212" ∈
      ContactExtractor.extractPhonesFromText ["98765 43212"] [] []) ∧
    ("+919876543212" ≠ "" ∧
      ("+919876543212" : String).data.head? = some '+' ∧
      10 ≤ (digitsOfStr "+919876543212").length ∧
      (digitsOfStr "+919876543212").length ≤ 15) :=
  ⟨by decide,
   extractPhones_shape.2.2 ["98765 43212"] [] [] "+919876543212" (by decide)⟩

/-!
## Claim C9
-/

theorem keyword_fold_inv (f : String → Bool) :
    ∀ (acc : List String) (s : String),
      s ∈ DocParser.skillKeywords.foldl
        (fun acc2 k => if f k then setAppend acc2 k else acc2) acc →
      s ∈ acc ∨ s ∈ DocParser.skillKeywords := by
  intro acc s
  refine mem_foldl_inv _ DocParser.skillKeywords ?_ acc s
  intro acc2 x hx s2 hs2
  split at hs2
  · rcases mem_setAppend hs2 with h' | rfl
    · exact Or.inl h'
    · exact Or.inr hx
  · exact Or.inl hs2

/-- C9 (confirmed): every string returned by `extractSkillsFromText` — in
base and in aggressive mode, whatever the direct regex tests, contextual
phrase candidates and bullet lines produce — is a verbatim member of the
fixed skill-keyword dictionary (the dictionary's canonical casing); the
raw matched phrase is never returned. -/
theorem extractSkills_subset_dictionary (directHit : String → Bool)
    (phraseCands bullets : List String) (isJobDescription aggressive : Bool)
    (s : String)
    (h : s ∈ DocParser.extractSkillsFromText directHit phraseCands bullets
      isJobDescription aggressive) :
    s ∈ DocParser.skillKeywords := by
  have hM2 : ∀ (acc : List String) (s' : String),
      s' ∈ phraseCands.foldl
        (fun acc raw =>
          let t : String := ⟨trimL raw.data⟩
          if 2 < t.length && t.length < 30 then
            DocParser.skillKeywords.foldl
              (fun acc2 known =>
                if DocParser.phraseHitsKeyword t known then setAppend acc2 known
                else acc2)
              acc
          else acc)
        acc →
      s' ∈ acc ∨ s' ∈ DocParser.skillKeywords := by
    intro acc s'
    refine mem_foldl_inv _ phraseCands ?_ acc s'
    intro acc2 x _ s2 hs2
    simp only [] at hs2
    split at hs2
    · exact keyword_fold_inv _ acc2 s2 hs2
    · exact Or.inl hs2
  have hM3 : ∀ (acc : List String) (s' : String),
      s' ∈ bullets.foldl
        (fun acc b =>
          let bt := lowerL b.data
          DocParser.skillKeywords.foldl
            (fun acc2 sk =>
              if containsSub bt (lowerL sk.data) then setAppend acc2 sk
              else acc2)
            acc)
        acc →
      s' ∈ acc ∨ s' ∈ DocParser.skillKeywords := by
    intro acc s'
    refine mem_foldl_inv _ bullets ?_ acc s'
    intro acc2 x _ s2 hs2
    exact keyword_fold_inv _ acc2 s2 hs2
  cases aggressive with
  | false =>
    simp only [DocParser.extractSkillsFromText, Bool.false_eq_true,
      if_false] at h
    rcases keyword_fold_inv directHit [] s h with h' | h'
    · exact absurd h' (List.not_mem_nil s)
    · exact h'
  | true =>
    simp only [DocParser.extractSkillsFromText, if_true] at h
    rcases hM3 _ s h with h3 | h3
    · rcases hM2 _ s h3 with h2 | h2
      · rcases keyword_fold_inv directHit [] s h2 with h1 | h1
        · exact absurd h1 (List.not_mem_nil s)
        · exact h1
      · exact h2
    · exact h3

set_option maxRecDepth 4000 in
/-- Witness for C9: a direct hit on `"Python"` is returned and is a
dictionary entry. -/
theorem extractSkills_subset_dictionary_witness :
    ("Python" ∈ DocParser.extractSkillsFromText
      (fun sk => sk == "Python") [] [] false false) ∧
    "Python" ∈ DocParser.skillKeywords :=
  ⟨by decide,
   extractSkills_subset_dictionary (fun sk => sk == "Python") [] [] false
     false "Python" (by decide)⟩

/-!
## Claim C3
-/

/-- C3 counterexample: on a text whose work history is two valid
YYYY–YYYY periods separated by a gap of about two years, the tier-2
single year-range regex matches the first range (`2015 - 2016`) and the
estimator returns `"1"` — not the claimed sum of both periods' durations,
`round((24 + 24)/12) = "4"`.  The scanned periods passed to the
work-history branch are the true ones, but that branch is never
reached. -/
theorem experience_sum_c3_counterexample :
    GeminiParser.extractExperienceYears 2026 (fun _ => c3yyyyPeriods)
      c3textYYYY = "1" ∧
    toString (jsRound
      (((GeminiParser.periodMonths ⟨⟨2015, 0, 1⟩, ⟨2016, 11, 31⟩⟩ +
         GeminiParser.periodMonths ⟨⟨2019, 0, 1⟩, ⟨2020, 11, 31⟩⟩ : ℤ) : ℚ)
        / 12)) = "4" ∧
    ("1" : String) ≠ "4" := by
  refine ⟨by decide, ?_, by decide⟩
  have h1 : (GeminiParser.periodMonths ⟨⟨2015, 0, 1⟩, ⟨2016, 11, 31⟩⟩ +
      GeminiParser.periodMonths ⟨⟨2019, 0, 1⟩, ⟨2020, 11, 31⟩⟩ : ℤ) = 48 := by
    decide
  rw [h1]
  have h2 : jsRound (((48 : ℤ) : ℚ) / 12) = 4 := by norm_num [jsRound]
  rw [h2]
  decide

/-- C3 (amended): when the work-history reconciliation *is* reached with
two valid periods sorted by start whose gap exceeds the 30-day
tolerance, it returns the rounded sum of the two periods' month counts
divided by 12 (empty unless positive) — and when the gap contributes at
least 12 months, that value is strictly below the rounded span from the
earliest start to the latest end, so the sum, not the span, is
returned. -/
theorem experience_sum_not_span (p q : GeminiParser.WorkPeriod)
    (text : String)
    (hsorted : p.start.getTime ≤ q.start.getTime)
    (hgap : GeminiParser.oneMonthMs <
      q.start.getTime - p.endDate.getTime)
    (hspan : GeminiParser.periodMonths p + GeminiParser.periodMonths q + 12 ≤
      GeminiParser.periodMonths ⟨p.start, q.endDate⟩) :
    GeminiParser.calculateExperienceFromWorkHistory (fun _ => [p, q]) text =
      (if 0 < jsRound (((GeminiParser.periodMonths p +
          GeminiParser.periodMonths q : ℤ) : ℚ) / 12) then
        toString (jsRound (((GeminiParser.periodMonths p +
          GeminiParser.periodMonths q : ℤ) : ℚ) / 12))
      else "") ∧
    jsRound (((GeminiParser.periodMonths p +
      GeminiParser.periodMonths q : ℤ) : ℚ) / 12) <
      jsRound (((GeminiParser.periodMonths ⟨p.start, q.endDate⟩ : ℤ) : ℚ)
        / 12) := by
  constructor
  · have hsort : GeminiParser.sortByStart [p, q] = [p, q] := by
      simp only [GeminiParser.sortByStart, List.foldr,
        GeminiParser.insertByStart]
      rw [if_pos hsorted]
    have hmerge : GeminiParser.mergeLoop p [q] = [p, q] := by
      unfold GeminiParser.mergeLoop
      rw [if_neg (by omega)]
      rfl
    simp only [GeminiParser.calculateExperienceFromWorkHistory, hsort,
      hmerge, List.map_cons, List.map_nil, List.sum_cons, List.sum_nil,
      add_zero]
  · set M := GeminiParser.periodMonths p + GeminiParser.periodMonths q
      with hM
    set S := GeminiParser.periodMonths ⟨p.start, q.endDate⟩ with hS
    have hplus : jsRound (((M + 12 : ℤ) : ℚ) / 12) =
        jsRound (((M : ℤ) : ℚ) / 12) + 1 := by
      unfold jsRound
      have heq : ((M + 12 : ℤ) : ℚ) / 12 = ((M : ℤ) : ℚ) / 12 + 1 := by
        push_cast
        ring
      rw [heq, add_right_comm]
      exact Int.floor_add_one _
    have hle : jsRound (((M + 12 : ℤ) : ℚ) / 12) ≤
        jsRound (((S : ℤ) : ℚ) / 12) := by
      unfold jsRound
      apply Int.floor_le_floor
      have hc : ((M + 12 : ℤ) : ℚ) ≤ ((S : ℤ) : ℚ) := by exact_mod_cast hspan
      have hdiv : ((M + 12 : ℤ) : ℚ) / 12 ≤ ((S : ℤ) : ℚ) / 12 := by
        gcongr
      linarith
    omega

/-- Witness for C3: two MM/YYYY periods (Jan 2015 – Jun 2016 and Jul 2018
– Aug 2019, a gap of about two years) with every hypothesis discharged by
evaluation. -/
theorem experience_sum_not_span_witness :
    ((⟨⟨2015, 0, 1⟩, ⟨2016, 5, 1⟩⟩ :
        GeminiParser.WorkPeriod).start.getTime ≤
      (⟨⟨2018, 6, 1⟩, ⟨2019, 7, 1⟩⟩ :
        GeminiParser.WorkPeriod).start.getTime) ∧
    (GeminiParser.oneMonthMs <
      (⟨⟨2018, 6, 1⟩, ⟨2019, 7, 1⟩⟩ :
        GeminiParser.WorkPeriod).start.getTime -
      (⟨⟨2015, 0, 1⟩, ⟨2016, 5, 1⟩⟩ :
        GeminiParser.WorkPeriod).endDate.getTime) ∧
    (GeminiParser.calculateExperienceFromWorkHistory
        (fun _ => [⟨⟨2015, 0, 1⟩, ⟨2016, 5, 1⟩⟩,
          ⟨⟨2018, 6, 1⟩, ⟨2019, 7, 1⟩⟩]) "x" =
      (if 0 < jsRound (((GeminiParser.periodMonths
          ⟨⟨2015, 0, 1⟩, ⟨2016, 5, 1⟩⟩ +
          GeminiParser.periodMonths ⟨⟨2018, 6, 1⟩, ⟨2019, 7, 1⟩⟩ : ℤ) : ℚ)
            / 12) then
        toString (jsRound (((GeminiParser.periodMonths
          ⟨⟨2015, 0, 1⟩, ⟨2016, 5, 1⟩⟩ +
          GeminiParser.periodMonths ⟨⟨2018, 6, 1⟩, ⟨2019, 7, 1⟩⟩ : ℤ) : ℚ)
            / 12))
      else "") ∧
      jsRound (((GeminiParser.periodMonths ⟨⟨2015, 0, 1⟩, ⟨2016, 5, 1⟩⟩ +
        GeminiParser.periodMonths ⟨⟨2018, 6, 1⟩, ⟨2019, 7, 1⟩⟩ : ℤ) : ℚ)
          / 12) <
        jsRound (((GeminiParser.periodMonths
          ⟨(⟨⟨2015, 0, 1⟩, ⟨2016, 5, 1⟩⟩ :
            GeminiParser.WorkPeriod).start,
           (⟨⟨2018, 6, 1⟩, ⟨2019, 7, 1⟩⟩ :
            GeminiParser.WorkPeriod).endDate⟩ : ℤ) : ℚ) / 12)) :=
  ⟨by decide, by decide,
   experience_sum_not_span ⟨⟨2015, 0, 1⟩, ⟨2016, 5, 1⟩⟩
     ⟨⟨2018, 6, 1⟩, ⟨2019, 7, 1⟩⟩ "x" (by decide) (by decide) (by decide)⟩

/-!
## Claim C1: support lemmas

The three matcher passes are `List.foldl`s over the normalised required
list.  The exact pass (`exactStep`) counts every tier-1 occurrence with no
matched-set guard; the two guarded passes add one per required skill whose
value is not yet in the matched set and whose tier test fires.
-/

/-- Membership in the front-inserting set representation. -/
theorem mem_setInsert (x r : String) (m : List String) :
    x ∈ setInsert r m ↔ x = r ∨ x ∈ m := by
  unfold setInsert
  split
  · rename_i hc
    constructor
    · exact Or.inr
    · rintro (rfl | hx)
      · exact List.mem_of_elem_eq_true hc
      · exact hx
  · exact List.mem_cons

/-- Exact-pass fold invariant: the counter grows by the number of tier-1
hits (one per occurrence, duplicates included), and the matched set
collects exactly the tier-1-matched required skills. -/
theorem exact_fold (nc : List String) :
    ∀ (nr : List String) (st : ℕ × List String),
      (nr.foldl (Matcher.exactStep nc) st).1 =
          st.1 + (nr.filter (Matcher.tier1 nc)).length ∧
      ∀ x, x ∈ (nr.foldl (Matcher.exactStep nc) st).2 ↔
          (x ∈ st.2 ∨ (x ∈ nr ∧ Matcher.tier1 nc x = true)) := by
  intro nr
  induction nr with
  | nil => intro st; simp
  | cons r t ih =>
    intro st
    simp only [List.foldl_cons]
    obtain ⟨ihc, ihm⟩ := ih (Matcher.exactStep nc st r)
    by_cases hr : Matcher.tier1 nc r
    · constructor
      · have h1 : (Matcher.exactStep nc st r).1 = st.1 + 1 := by
          simp [Matcher.exactStep, hr]
        rw [ihc, h1, List.filter_cons, if_pos hr, List.length_cons]
        omega
      · intro x
        rw [ihm x]
        have h2 : (Matcher.exactStep nc st r).2 = setInsert r st.2 := by
          simp [Matcher.exactStep, hr]
        rw [h2, mem_setInsert]
        simp only [List.mem_cons]
        constructor
        · rintro ((rfl | hx) | ⟨hxt, hp⟩)
          · exact Or.inr ⟨Or.inl rfl, hr⟩
          · exact Or.inl hx
          · exact Or.inr ⟨Or.inr hxt, hp⟩
        · rintro (hx | ⟨(rfl | hxt), hp⟩)
          · exact Or.inl (Or.inr hx)
          · exact Or.inl (Or.inl rfl)
          · exact Or.inr ⟨hxt, hp⟩
    · have hstep : Matcher.exactStep nc st r = st := by
        simp [Matcher.exactStep, hr]
      rw [hstep] at ihc ihm ⊢
      constructor
      · rw [ihc, List.filter_cons, if_neg hr]
      · intro x
        rw [ihm x]
        simp only [List.mem_cons]
        constructor
        · rintro (hx | ⟨hxt, hp⟩)
          · exact Or.inl hx
          · exact Or.inr ⟨Or.inr hxt, hp⟩
        · rintro (hx | ⟨(rfl | hxt), hp⟩)
          · exact Or.inl hx
          · exact absurd hp hr
          · exact Or.inr ⟨hxt, hp⟩

/-- Guarded-pass fold invariant (shared shape of the partial/substantial
pass and the equivalence pass): provided the required list has no duplicate
values, the counter grows by the number of required skills outside the
incoming matched set whose tier predicate fires, and the matched set gains
exactly the predicate hits. -/
theorem guarded_fold (pred : String → Bool) :
    ∀ (nr : List String), nr.Nodup →
    ∀ (st : ℕ × List String),
      ((nr.foldl (fun st r => if st.2.contains r then st
            else if pred r then (st.1 + 1, r :: st.2) else st) st).1 =
          st.1 + (nr.filter (fun r => !st.2.contains r && pred r)).length) ∧
      ∀ x, x ∈ (nr.foldl (fun st r => if st.2.contains r then st
            else if pred r then (st.1 + 1, r :: st.2) else st) st).2 ↔
          (x ∈ st.2 ∨ (x ∈ nr ∧ pred x = true)) := by
  intro nr
  induction nr with
  | nil => intro _ st; simp
  | cons r t ih =>
    intro hnd st
    obtain ⟨hrt, hndt⟩ := List.nodup_cons.mp hnd
    simp only [List.foldl_cons]
    by_cases hcr : st.2.contains r = true
    · -- already matched: skipped entirely
      obtain ⟨ihc, ihm⟩ := ih hndt st
      have hmem : r ∈ st.2 := List.mem_of_elem_eq_true hcr
      rw [if_pos hcr]
      constructor
      · rw [ihc, List.filter_cons, if_neg (by rw [hcr]; simp)]
      · intro x
        rw [ihm x]
        simp only [List.mem_cons]
        constructor
        · rintro (hx | ⟨hxt, hp⟩)
          · exact Or.inl hx
          · exact Or.inr ⟨Or.inr hxt, hp⟩
        · rintro (hx | ⟨(rfl | hxt), hp⟩)
          · exact Or.inl hx
          · exact Or.inl hmem
          · exact Or.inr ⟨hxt, hp⟩
    · have hcf : st.2.contains r = false := by simpa using hcr
      by_cases hpr : pred r = true
      · -- new hit: count bumps, r is pushed on the matched set
        obtain ⟨ihc, ihm⟩ := ih hndt (st.1 + 1, r :: st.2)
        rw [if_neg hcr, if_pos hpr]
        have hfc : t.filter (fun r' => !(r :: st.2).contains r' && pred r') =
            t.filter (fun r' => !st.2.contains r' && pred r') := by
          apply List.filter_congr
          intro x hx
          have hne : x ≠ r := fun e => hrt (e ▸ hx)
          have h1 : ((r :: st.2).contains x) = (x == r || st.2.contains x) :=
            rfl
          rw [h1, beq_eq_false_iff_ne.mpr hne, Bool.false_or]
        constructor
        · rw [ihc, hfc, List.filter_cons, if_pos (by rw [hcf, hpr]; rfl),
            List.length_cons]
          omega
        · intro x
          rw [ihm x]
          simp only [List.mem_cons]
          constructor
          · rintro ((rfl | hx) | ⟨hxt, hp⟩)
            · exact Or.inr ⟨Or.inl rfl, hpr⟩
            · exact Or.inl hx
            · exact Or.inr ⟨Or.inr hxt, hp⟩
          · rintro (hx | ⟨(rfl | hxt), hp⟩)
            · exact Or.inl (Or.inr hx)
            · exact Or.inl (Or.inl rfl)
            · exact Or.inr ⟨hxt, hp⟩
      · -- untouched step
        have hpf : pred r = false := by simpa using hpr
        obtain ⟨ihc, ihm⟩ := ih hndt st
        rw [if_neg hcr, if_neg hpr]
        constructor
        · rw [ihc, List.filter_cons, if_neg (by rw [hpf]; simp)]
        · intro x
          rw [ihm x]
          simp only [List.mem_cons]
          constructor
          · rintro (hx | ⟨hxt, hp⟩)
            · exact Or.inl hx
            · exact Or.inr ⟨Or.inr hxt, hp⟩
          · rintro (hx | ⟨(rfl | hxt), hp⟩)
            · exact Or.inl hx
            · exact absurd hp hpr
            · exact Or.inr ⟨hxt, hp⟩

/-- The partial/substantial loop body is the guarded step for the disjoined
tier-2/tier-3 test. -/
theorem psStep_eq (nc : List String) :
    Matcher.partialSubstantialStep nc = fun st r =>
      if st.2.contains r then st
      else if (Matcher.tier2 nc r || Matcher.tier3 nc r) then
        (st.1 + 1, r :: st.2)
      else st := by
  funext st r
  simp only [Matcher.partialSubstantialStep]
  by_cases h1 : st.2.contains r = true
  · rw [if_pos h1, if_pos h1]
  · rw [if_neg h1, if_neg h1]
    by_cases h2 : Matcher.tier2 nc r = true
    · rw [if_pos h2, if_pos (by rw [h2]; rfl)]
    · have h2f : Matcher.tier2 nc r = false := by simpa using h2
      rw [if_neg h2]
      by_cases h3 : Matcher.tier3 nc r = true
      · rw [if_pos h3, if_pos (by rw [h2f, h3]; rfl)]
      · have h3f : Matcher.tier3 nc r = false := by simpa using h3
        rw [if_neg h3, if_neg (by rw [h2f, h3f]; simp)]

/-- Splitting a filter over a disjunction of tests under a common guard:
entries passing the first test, plus entries passing only the second. -/
theorem length_filter_or_split (l : List String) (a b c : String → Bool) :
    (l.filter (fun x => a x && (b x || c x))).length =
      (l.filter (fun x => a x && b x)).length +
      (l.filter (fun x => a x && !b x && c x)).length := by
  induction l with
  | nil => simp
  | cons x t ih =>
    simp only [List.filter_cons]
    cases ha : a x <;> cases hb : b x <;> cases hc : c x <;>
      simp [List.length_cons] <;> omega

/-- A required skill passes at most one of the four first-tier tests, so
the declarative matched count never exceeds the required-list length. -/
theorem specMatchedCount_le (nc nr : List String) :
    Matcher.specMatchedCount nc nr ≤ nr.length := by
  induction nr with
  | nil => simp [Matcher.specMatchedCount]
  | cons r t ih =>
    simp only [Matcher.specMatchedCount, List.filter_cons,
      List.length_cons] at ih ⊢
    by_cases h1 : Matcher.tier1 nc r = true <;>
      by_cases h2 : Matcher.tier2 nc r = true <;>
        by_cases h3 : Matcher.tier3 nc r = true <;>
          by_cases h4 : Matcher.tier4 nc r = true <;>
            simp [Matcher.firstTier2, Matcher.firstTier3, Matcher.firstTier4,
              h1, h2, h3, h4] <;>
              omega

/-- With no candidate skills every tier test fails, so the declarative
matched count is 0. -/
theorem specMatchedCount_nil_nc (nr : List String) :
    Matcher.specMatchedCount [] nr = 0 := by
  have h1 : ∀ r, Matcher.tier1 [] r = false := fun r => rfl
  have h2 : ∀ r, Matcher.tier2 [] r = false := by
    intro r; simp [Matcher.tier2]
  have h3 : ∀ r, Matcher.tier3 [] r = false := by
    intro r; simp [Matcher.tier3]
  have h4 : ∀ r, Matcher.tier4 [] r = false := by
    intro r; simp [Matcher.tier4]
  simp [Matcher.specMatchedCount, Matcher.firstTier2, Matcher.firstTier3,
    Matcher.firstTier4, h1, h2, h3, h4]

/-- `Math.round` of a percentage `c/n * 100` with `c ≤ n` lands in
`[0, 100]`. -/
theorem jsRound_div_bounds (c n : ℕ) (hc : c ≤ n) (hn : 0 < n) :
    0 ≤ jsRound (((c : ℚ) / (n : ℚ)) * 100) ∧
    jsRound (((c : ℚ) / (n : ℚ)) * 100) ≤ 100 := by
  have hn' : (0 : ℚ) < (n : ℚ) := by exact_mod_cast hn
  have h0 : (0 : ℚ) ≤ ((c : ℚ) / (n : ℚ)) * 100 := by positivity
  have h1 : ((c : ℚ) / (n : ℚ)) ≤ 1 := by
    rw [div_le_one hn']
    exact_mod_cast hc
  have h2 : ((c : ℚ) / (n : ℚ)) * 100 ≤ 100 := by linarith
  simp only [jsRound]
  constructor
  · exact Int.floor_nonneg.mpr (by linarith)
  · have h3 : ((c : ℚ) / (n : ℚ)) * 100 + 1/2 < ((101 : ℤ) : ℚ) := by
      push_cast
      linarith
    have h4 := Int.floor_lt.mpr h3
    omega

/-- The three chained matcher passes produce exactly the declarative
first-matching-tier count, provided the normalised required list has no
duplicate entries. -/
theorem matchChain_count (nc nr : List String) (hnd : nr.Nodup) :
    (nr.foldl (Matcher.equivalentStep nc)
      (nr.foldl (Matcher.partialSubstantialStep nc)
        (nr.foldl (Matcher.exactStep nc) (0, [])))).1 =
    Matcher.specMatchedCount nc nr := by
  obtain ⟨h1c, h1m⟩ := exact_fold nc nr (0, ([] : List String))
  have heq : Matcher.equivalentStep nc = fun st r =>
      if st.2.contains r then st
      else if Matcher.tier4 nc r then (st.1 + 1, r :: st.2)
      else st := rfl
  rw [psStep_eq nc, heq]
  set s1 : ℕ × List String := nr.foldl (Matcher.exactStep nc) (0, []) with hs1
  set s2 : ℕ × List String := nr.foldl (fun st r =>
      if st.2.contains r then st
      else if (Matcher.tier2 nc r || Matcher.tier3 nc r) then
        (st.1 + 1, r :: st.2)
      else st) s1 with hs2
  set s3 : ℕ × List String := nr.foldl (fun st r =>
      if st.2.contains r then st
      else if Matcher.tier4 nc r then (st.1 + 1, r :: st.2)
      else st) s2 with hs3
  obtain ⟨h2c, h2m⟩ :=
    guarded_fold (fun r => Matcher.tier2 nc r || Matcher.tier3 nc r) nr hnd s1
  obtain ⟨h3c, h3m⟩ := guarded_fold (Matcher.tier4 nc) nr hnd s2
  rw [← hs2] at h2c h2m
  rw [← hs3] at h3c h3m
  -- replace the matched-set membership tests of the second pass by tier 1
  have hf2 : nr.filter
      (fun r => !s1.2.contains r &&
        (Matcher.tier2 nc r || Matcher.tier3 nc r)) =
      nr.filter (fun r => !Matcher.tier1 nc r &&
        (Matcher.tier2 nc r || Matcher.tier3 nc r)) := by
    apply List.filter_congr
    intro x hx
    have hm1 : x ∈ s1.2 ↔ Matcher.tier1 nc x = true := by
      rw [h1m x]
      simp [hx]
    by_cases ht : Matcher.tier1 nc x = true
    · have hcc : s1.2.contains x = true :=
        List.elem_eq_true_of_mem (hm1.mpr ht)
      rw [hcc, ht]
    · have hnm : x ∉ s1.2 := fun hmm => ht (hm1.mp hmm)
      have hcf : s1.2.contains x = false := by
        cases hcc : s1.2.contains x
        · rfl
        · exact absurd (List.mem_of_elem_eq_true hcc) hnm
      have htf : Matcher.tier1 nc x = false := by simpa using ht
      rw [hcf, htf]
  rw [hf2] at h2c
  have hsplit : (nr.filter (fun r => !Matcher.tier1 nc r &&
        (Matcher.tier2 nc r || Matcher.tier3 nc r))).length =
      (nr.filter (Matcher.firstTier2 nc)).length +
      (nr.filter (Matcher.firstTier3 nc)).length :=
    length_filter_or_split nr (fun r => !Matcher.tier1 nc r)
      (Matcher.tier2 nc) (Matcher.tier3 nc)
  rw [hsplit] at h2c
  -- replace the matched-set membership tests of the third pass by tiers 1–3
  have hf3 : nr.filter (fun r => !s2.2.contains r && Matcher.tier4 nc r) =
      nr.filter (Matcher.firstTier4 nc) := by
    apply List.filter_congr
    intro x hx
    have hm2 : x ∈ s2.2 ↔ (Matcher.tier1 nc x = true ∨
        (Matcher.tier2 nc x || Matcher.tier3 nc x) = true) := by
      rw [h2m x, h1m x]
      simp [hx]
    cases e1 : Matcher.tier1 nc x <;> cases e2 : Matcher.tier2 nc x <;>
      cases e3 : Matcher.tier3 nc x <;>
    first
    | (have hor : Matcher.tier1 nc x = true ∨
          (Matcher.tier2 nc x || Matcher.tier3 nc x) = true := by
            simp [e1, e2, e3]
       have hcc : s2.2.contains x = true :=
          List.elem_eq_true_of_mem (hm2.mpr hor)
       rw [hcc]
       simp [Matcher.firstTier4, e1, e2, e3])
    | (have hnm : x ∉ s2.2 := fun hmm => by
          rcases hm2.mp hmm with h | h
          · simp [e1] at h
          · simp [e2, e3] at h
       have hcf : s2.2.contains x = false := by
          cases hcc : s2.2.contains x
          · rfl
          · exact absurd (List.mem_of_elem_eq_true hcc) hnm
       rw [hcf]
       simp [Matcher.firstTier4, e1, e2, e3])
  rw [hf3] at h3c
  simp only [Matcher.specMatchedCount]
  omega

/-!
## Claim C1
-/

/-- C1 counterexample: the exact pass has no matched-set guard and counts
every occurrence, so on a required list with duplicates the code diverges
from the claimed "each required skill is matched at most once, by the
first tier that matches it" count: with candidate skills
`["python", "ab"]` and required skills
`["python", "python", "a b", "a b"]` the code returns 75 (the exact pass
counts `"python"` twice, the guarded partial pass counts `"a b"` once),
while the claimed per-skill first-tier count gives
`round(4/4*100) = 100`. -/
theorem calculateMatchPercentage_c1_counterexample :
    Matcher.calculateMatchPercentage
        [Matcher.SkillVal.str "python", Matcher.SkillVal.str "ab"]
        [Matcher.SkillVal.str "python", Matcher.SkillVal.str "python",
         Matcher.SkillVal.str "a b", Matcher.SkillVal.str "a b"] = 75 ∧
    jsRound (((Matcher.specMatchedCount
          ((Matcher.filterStrings [Matcher.SkillVal.str "python",
              Matcher.SkillVal.str "ab"]).map Matcher.normSkill)
          ((Matcher.filterStrings [Matcher.SkillVal.str "python",
              Matcher.SkillVal.str "python", Matcher.SkillVal.str "a b",
              Matcher.SkillVal.str "a b"]).map Matcher.normSkill) : ℚ) /
        (((Matcher.filterStrings [Matcher.SkillVal.str "python",
            Matcher.SkillVal.str "python", Matcher.SkillVal.str "a b",
            Matcher.SkillVal.str "a b"]).map Matcher.normSkill).length : ℚ)) *
      100) = 100 ∧
    (75 : ℤ) ≠ 100 := by
  refine ⟨?_, ?_, by decide⟩
  · simp only [Matcher.calculateMatchPercentage]
    rw [if_neg (by decide), if_neg (by decide), if_neg (by decide)]
    have h1 : ∀ x : ℕ × List String, x.1 = 3 → ∀ n : ℕ, n = 4 →
        jsRound (((x.1 : ℚ) / (n : ℚ)) * 100) = 75 := by
      intro x hx n hn
      rw [hx, hn]
      norm_num [jsRound]
    exact h1 _ (by decide) _ (by decide)
  · have h2 : ∀ c : ℕ, c = 4 → ∀ n : ℕ, n = 4 →
        jsRound (((c : ℚ) / (n : ℚ)) * 100) = 100 := by
      intro c hc n hn
      rw [hc, hn]
      norm_num [jsRound]
    exact h2 _ (by decide) _ (by decide)

/-- C1 (amended): when the normalised required list is duplicate-free, the
four tiers run in the fixed order exact, partial, substantial, technology
equivalents, each pass scanning the full required list, each required
skill is matched at most once by the first tier whose test it passes, and
the result is `round(matchedCount / totalRequiredSkills * 100)`, which
lies between 0 and 100.  (Without the duplicate-free hypothesis the
unguarded exact pass breaks the at-most-once claim, see the
counterexample.) -/
theorem calculateMatchPercentage_c1_amended
    (cs rs : List Matcher.SkillVal)
    (h : ((Matcher.filterStrings rs).map Matcher.normSkill).Nodup) :
    Matcher.calculateMatchPercentage cs rs =
      jsRound (((Matcher.specMatchedCount
            ((Matcher.filterStrings cs).map Matcher.normSkill)
            ((Matcher.filterStrings rs).map Matcher.normSkill) : ℚ) /
          (((Matcher.filterStrings rs).map Matcher.normSkill).length : ℚ)) *
        100) ∧
    0 ≤ Matcher.calculateMatchPercentage cs rs ∧
    Matcher.calculateMatchPercentage cs rs ≤ 100 := by
  cases rs with
  | nil =>
    have h0 : Matcher.calculateMatchPercentage cs [] = 0 := by
      unfold Matcher.calculateMatchPercentage
      simp
    rw [h0]
    refine ⟨?_, le_refl 0, by norm_num⟩
    have e0 : (Matcher.filterStrings ([] : List Matcher.SkillVal)).map
        Matcher.normSkill = [] := rfl
    rw [e0]
    have e1 : Matcher.specMatchedCount
        ((Matcher.filterStrings cs).map Matcher.normSkill) [] = 0 := rfl
    rw [e1]
    norm_num [jsRound]
  | cons a rs' =>
    cases cs with
    | nil =>
      have h0 : Matcher.calculateMatchPercentage [] (a :: rs') = 0 := by
        unfold Matcher.calculateMatchPercentage
        split
        · rfl
        · simp
      rw [h0]
      refine ⟨?_, le_refl 0, by norm_num⟩
      have e0 : (Matcher.filterStrings ([] : List Matcher.SkillVal)).map
          Matcher.normSkill = [] := rfl
      rw [e0, specMatchedCount_nil_nc]
      norm_num [jsRound]
    | cons b cs' =>
      by_cases h3 :
          ((Matcher.filterStrings (a :: rs')).map Matcher.normSkill).isEmpty
            = true
      · have hnr : (Matcher.filterStrings (a :: rs')).map Matcher.normSkill
            = [] := by
          simpa using h3
        have h0 : Matcher.calculateMatchPercentage (b :: cs') (a :: rs')
            = 0 := by
          unfold Matcher.calculateMatchPercentage
          rw [if_neg (by simp), if_neg (by simp)]
          rw [hnr]
          simp
        rw [h0]
        refine ⟨?_, le_refl 0, by norm_num⟩
        rw [hnr]
        have e1 : Matcher.specMatchedCount
            ((Matcher.filterStrings (b :: cs')).map Matcher.normSkill) []
            = 0 := rfl
        rw [e1]
        norm_num [jsRound]
      · have hnr' :
            (Matcher.filterStrings (a :: rs')).map Matcher.normSkill ≠ [] := by
          simpa using h3
        have hlen : 0 <
            ((Matcher.filterStrings (a :: rs')).map Matcher.normSkill).length :=
          List.length_pos.mpr hnr'
        have hcode : Matcher.calculateMatchPercentage (b :: cs') (a :: rs') =
            jsRound (((Matcher.specMatchedCount
                  ((Matcher.filterStrings (b :: cs')).map Matcher.normSkill)
                  ((Matcher.filterStrings (a :: rs')).map Matcher.normSkill) :
                    ℚ) /
                (((Matcher.filterStrings (a :: rs')).map
                  Matcher.normSkill).length : ℚ)) * 100) := by
          simp only [Matcher.calculateMatchPercentage]
          rw [if_neg (by simp), if_neg (by simp), if_neg h3]
          rw [matchChain_count _ _ h]
        refine ⟨hcode, ?_, ?_⟩
        · rw [hcode]
          exact (jsRound_div_bounds _ _ (specMatchedCount_le _ _) hlen).1
        · rw [hcode]
          exact (jsRound_div_bounds _ _ (specMatchedCount_le _ _) hlen).2

/-- Witness for C1 (amended): the duplicate-free hypothesis discharged on
candidate skills `["Python", "AWS Lambda"]` against required skills
`["python", "lambda"]` (an exact hit and a word-boundary substantial
hit). -/
theorem calculateMatchPercentage_c1_amended_witness :
    ((Matcher.filterStrings [Matcher.SkillVal.str "python",
        Matcher.SkillVal.str "lambda"]).map Matcher.normSkill).Nodup ∧
    (Matcher.calculateMatchPercentage
        [Matcher.SkillVal.str "Python", Matcher.SkillVal.str "AWS Lambda"]
        [Matcher.SkillVal.str "python", Matcher.SkillVal.str "lambda"] =
      jsRound (((Matcher.specMatchedCount
            ((Matcher.filterStrings [Matcher.SkillVal.str "Python",
                Matcher.SkillVal.str "AWS Lambda"]).map Matcher.normSkill)
            ((Matcher.filterStrings [Matcher.SkillVal.str "python",
                Matcher.SkillVal.str "lambda"]).map Matcher.normSkill) : ℚ) /
          (((Matcher.filterStrings [Matcher.SkillVal.str "python",
              Matcher.SkillVal.str "lambda"]).map
                Matcher.normSkill).length : ℚ)) * 100) ∧
      0 ≤ Matcher.calculateMatchPercentage
        [Matcher.SkillVal.str "Python", Matcher.SkillVal.str "AWS Lambda"]
        [Matcher.SkillVal.str "python", Matcher.SkillVal.str "lambda"] ∧
      Matcher.calculateMatchPercentage
        [Matcher.SkillVal.str "Python", Matcher.SkillVal.str "AWS Lambda"]
        [Matcher.SkillVal.str "python", Matcher.SkillVal.str "lambda"]
          ≤ 100) :=
  ⟨by decide,
   calculateMatchPercentage_c1_amended
     [Matcher.SkillVal.str "Python", Matcher.SkillVal.str "AWS Lambda"]
     [Matcher.SkillVal.str "python", Matcher.SkillVal.str "lambda"]
     (by decide)⟩
